import Mathlib

/-!
# Verification of the DML parse/serialize engine (tree-software-company/dml-go)

This file gives a shallow embedding, in Lean 4, of the Go code of the DML
configuration-language engine: the statement assembler and declaration parser
(`Parse`, `parseLine`, `parseDirective`, the literal parsers `parseString`,
`parseInt`, `parseFloat`, `parseBool`, `parseList`, `parseMap`, `parseMapValue`,
`smartSplit`, `isValidIdentifier` — all from the multi-line-capable parser
variant), the nested-key resolver (`resolveNestedKey`, `setNestedKey`, `Set`),
the typed accessors (`GetString` … `GetMap`, the `Must*` variants), the
serializer (`Dump` and its helpers), and the default-policy applier
(`applyDefault` / `ApplyDefaults` as given in the project README, tested by
`policy_test.go`).

Modelling conventions:
* Go strings are modelled as `List Char` (`Str`).  Byte-level iteration is
  modelled char-by-char; all inputs of interest are ASCII.
* `strings.TrimSpace` is modelled with the ASCII whitespace characters.
* Go `int` is modelled as unbounded `Int` (`strconv.Atoi`'s 64-bit range check
  is not modelled), and Go `float64` is modelled with exact decimal semantics
  as a normalised mantissa/exponent pair (`GoFloat`): `strconv.ParseFloat` is
  modelled as exact decimal parsing (IEEE-754 rounding, `Inf`/`NaN`, hex
  floats and digit-group underscores are not modelled), and the `%v`/`%g`
  rendering of a float is modelled as the exact shortest decimal form.  No
  claim below depends on rounding behaviour.
* Go maps (`map[string]any`) are modelled as association lists with unique
  keys; map assignment replaces the binding in place.
* Mutation is modelled by state passing; functions returning `error` are
  modelled with `Except`.
* `parseMap`/`parseMapValue` recurse on strictly shorter strings in Go; the
  embedding makes that recursion structural with a fuel parameter initialised
  to the string length plus two, which can never be exhausted because each
  nested `parseMap` call receives a string at least two characters shorter
  (its enclosing braces and a separating colon are stripped).  The serializer
  `dumpData`/`dumpValue`/`dumpMap`/`dumpInlineValue` recursion is likewise
  fuelled by the value depth.
-/

/-- Go strings, modelled as lists of characters. -/
abbrev Str := List Char

/-- ASCII whitespace, modelling the characters `strings.TrimSpace` removes
(Unicode-only space characters are not modelled). -/
def isGoSpace (c : Char) : Bool :=
  c = ' ' || c = '\t' || c = '\n' || c = '\r' || c = '\x0b' || c = '\x0c'

/-- Leading-whitespace removal (the left half of `strings.TrimSpace`). -/
def trimLead (l : Str) : Str := l.dropWhile isGoSpace

/-- Trailing-whitespace removal (the right half of `strings.TrimSpace`). -/
def trimTrail (l : Str) : Str := (l.reverse.dropWhile isGoSpace).reverse

/-- `strings.TrimSpace`. -/
def trimSpace (l : Str) : Str := trimTrail (trimLead l)

/-- `strings.HasPrefix`. -/
def hasPrefix (pre l : Str) : Bool := pre.isPrefixOf l

/-- `strings.HasSuffix`. -/
def hasSuffix (suf l : Str) : Bool := suf.isSuffixOf l

/-- `strings.TrimSuffix`: removes one occurrence of a trailing suffix. -/
def trimSuffix (suf l : Str) : Str :=
  if hasSuffix suf l then l.take (l.length - suf.length) else l

/-- `strings.TrimPrefix`: removes one occurrence of a leading prefix. -/
def trimPrefix (pre l : Str) : Str :=
  if hasPrefix pre l then l.drop pre.length else l

/-- `strings.Trim l cutset`: removes all leading and trailing characters that
occur in `cutset`. -/
def goTrim (l cutset : Str) : Str :=
  ((l.dropWhile cutset.contains).reverse.dropWhile cutset.contains).reverse

/-- `strings.Split` with a one-character separator.  Like Go's `Split`, the
result is never empty, and splitting the empty string yields `[[]]`. -/
def splitChar (sep : Char) : Str → List Str
  | [] => [[]]
  | c :: rest =>
    match splitChar sep rest with
    | f :: fs => if c = sep then [] :: f :: fs else (c :: f) :: fs
    | [] => [[c]]

/-- `strings.SplitN _ _ 2` with a one-character separator: split at the first
occurrence, `none` when the separator does not occur. -/
def splitFirst (sep : Char) : Str → Option (Str × Str)
  | [] => none
  | c :: rest =>
    if c = sep then some ([], rest)
    else match splitFirst sep rest with
      | some (a, b) => some (c :: a, b)
      | none => none

/-- `strings.Fields`: the maximal runs of non-whitespace characters. -/
def goFields : Str → List Str
  | [] => []
  | c :: rest =>
    if isGoSpace c then goFields rest
    else match rest, goFields rest with
      | [], _ => [[c]]
      | d :: _, fs =>
        if isGoSpace d then [c] :: fs
        else (c :: fs.headD []) :: fs.tail

/-- `strings.Index` (first occurrence of a substring), 0-based, `none` when
absent, modelling Go's `-1` result. -/
def goIndexOf (l sub : Str) : Option Nat :=
  match l with
  | [] => if sub = [] then some 0 else none
  | _ :: rest =>
    if sub.isPrefixOf l then some 0
    else (goIndexOf rest sub).map (· + 1)

/-- ASCII `strings.ToLower`. -/
def goToLower (l : Str) : Str :=
  l.map fun c => if 'A' ≤ c ∧ c ≤ 'Z' then Char.ofNat (c.toNat + 32) else c

/-- ASCII decimal digit test. -/
def isDigit (c : Char) : Bool := '0' ≤ c && c ≤ '9'

/-- Numeric value of a digit string. -/
def digitsToNat (l : Str) : Nat :=
  l.foldl (fun acc c => 10 * acc + (c.toNat - '0'.toNat)) 0

/-- `strconv.Atoi`: optional sign followed by at least one decimal digit.
The Go 64-bit range check is not modelled (`Int` is unbounded here). -/
def goAtoi (l : Str) : Option Int :=
  let core : Str → Option Nat := fun ds =>
    if ds ≠ [] ∧ ds.all isDigit then some (digitsToNat ds) else none
  match l with
  | '+' :: ds => (core ds).map (Int.ofNat ·)
  | '-' :: ds => (core ds).map (fun n => -(Int.ofNat n))
  | ds => (core ds).map (Int.ofNat ·)

/-- Go `float64` values, with exact decimal semantics: the value is
`man * 10 ^ exp`, normalised so that `10 ∤ man` (and `⟨0, 0⟩` for zero), which
makes equality of represented decimals plain structural equality. -/
structure GoFloat where
  man : Int
  exp : Int
  deriving DecidableEq, Repr

/-- Strip factors of ten from a mantissa (fuelled division loop). -/
def stripTens : Nat → Int → Int × Int
  | 0, m => (m, 0)
  | fuel + 1, m =>
    if m ≠ 0 ∧ m % 10 = 0 then
      let (m', k) := stripTens fuel (Int.tdiv m 10)
      (m', k + 1)
    else (m, 0)

/-- Normalising constructor for `GoFloat`. -/
def mkGoFloat (m e : Int) : GoFloat :=
  if m = 0 then ⟨0, 0⟩
  else
    let (m', k) := stripTens m.natAbs m
    ⟨m', e + k⟩

/-- The exponent suffix accepted by `strconv.ParseFloat` after the mantissa:
empty, or `e`/`E`, an optional sign and at least one digit. -/
def parseExpSuffix : Str → Option Int
  | [] => some 0
  | e :: r =>
    if e = 'e' ∨ e = 'E' then
      let (sgn, ds) : Int × Str :=
        match r with
        | '+' :: ds => (1, ds)
        | '-' :: ds => (-1, ds)
        | ds => (1, ds)
      if ds ≠ [] ∧ ds.all isDigit then some (sgn * digitsToNat ds) else none
    else none

/-- `strconv.ParseFloat` on the plain decimal grammar: optional sign, digits
with an optional fractional part (at least one digit overall), optional
exponent.  The result is the exact decimal value; `Inf`/`NaN`, hex floats and
underscores are not modelled. -/
def goParseFloat (l : Str) : Option GoFloat :=
  let (sgn, rest) : Int × Str :=
    match l with
    | '+' :: r => (1, r)
    | '-' :: r => (-1, r)
    | r => (1, r)
  let ipart := rest.takeWhile isDigit
  let rest1 := rest.dropWhile isDigit
  let withFrac : Str → Str → Option GoFloat := fun fpart tail =>
    if ipart = [] ∧ fpart = [] then none
    else
      (parseExpSuffix tail).map fun e =>
        mkGoFloat (sgn * digitsToNat (ipart ++ fpart)) (e - fpart.length)
  match rest1 with
  | '.' :: r2 => withFrac (r2.takeWhile isDigit) (r2.dropWhile isDigit)
  | _ => if ipart = [] then none else withFrac [] rest1

/-- The dynamic value model: the Go `interface{}` values the parser stores
(`string`, `int`, `float64`, `bool`, `[]interface{}`,
`map[string]interface{}`). -/
inductive GoVal where
  | vstr (s : Str)
  | vint (n : Int)
  | vfloat (q : GoFloat)
  | vbool (b : Bool)
  | vlist (xs : List GoVal)
  | vmap (m : List (Str × GoVal))

/-- A Go `map[string]any`, as an association list with unique keys. -/
abbrev GoMap := List (Str × GoVal)

/-- Go map lookup `m[k]` (first matching binding). -/
def lookupA (m : GoMap) (k : Str) : Option GoVal :=
  match m with
  | [] => none
  | (k', v) :: rest => if k' = k then some v else lookupA rest k

/-- Go map assignment `m[k] = v`: replace the binding in place, or append. -/
def insertA (m : GoMap) (k : Str) (v : GoVal) : GoMap :=
  match m with
  | [] => [(k, v)]
  | (k', v') :: rest => if k' = k then (k, v) :: rest else (k', v') :: insertA rest k v

/-- Discriminant test: is the value a `Map`? -/
def GoVal.isMapKind : GoVal → Bool
  | .vmap _ => true
  | _ => false

/-- The dynamic kind of a value (the `reflect.TypeOf` discriminant used by
`typesMatch`, modelled as the variant tag). -/
inductive GoKind where
  | str | int | float | bool | list | map
  deriving DecidableEq, Repr

/-- Variant tag of a value. -/
def GoVal.kind : GoVal → GoKind
  | .vstr _ => .str
  | .vint _ => .int
  | .vfloat _ => .float
  | .vbool _ => .bool
  | .vlist _ => .list
  | .vmap _ => .map

/-- `ErrorType` from `error.go`. -/
inductive ErrType where
  | syntaxErr | validationErr | typeErr | unknownErr
  deriving DecidableEq, Repr

/-- `DMLError` from `error.go`. -/
structure DMLError where
  errType : ErrType
  line : Nat
  column : Nat
  message : Str
  context : Str
  deriving DecidableEq, Repr

/-- `MapStyle` from `config.go`. -/
inductive MapStyle where
  | auto | json | flat
  deriving DecidableEq, Repr

/-- The `Config` container: a root value tree and the active render style
(the `defaultKeys` metadata set plays no role in any claim and is omitted). -/
structure Config where
  data : GoMap
  mapStyle : MapStyle

/-- `New()`. -/
def Config.new : Config := ⟨[], .auto⟩

/-- Go error-message interpolation helper: a literal rendered as `Str`. -/
def lit (s : String) : Str := s.toList

/-- `parseString` (multi-line parser variant): the value must start and end
with a double quote; the result is `strings.Trim(value, "\"")`. -/
def parseStringGo (value : Str) (lineNum col : Nat) (line : Str) : Except DMLError Str :=
  if hasPrefix ['"'] value ∧ hasSuffix ['"'] value then
    .ok (goTrim value ['"'])
  else
    .error ⟨.typeErr, lineNum, col, lit "String must be enclosed in double quotes", line⟩

/-- `parseInt`. -/
def parseIntGo (value : Str) (lineNum col : Nat) (line : Str) : Except DMLError Int :=
  match goAtoi value with
  | some n => .ok n
  | none => .error ⟨.typeErr, lineNum, col, lit "Invalid integer value: " ++ value, line⟩

/-- `parseFloat`. -/
def parseFloatGo (value : Str) (lineNum col : Nat) (line : Str) : Except DMLError GoFloat :=
  match goParseFloat value with
  | some q => .ok q
  | none => .error ⟨.typeErr, lineNum, col, lit "Invalid float value: " ++ value, line⟩

/-- `parseBool`. -/
def parseBoolGo (value : Str) (lineNum col : Nat) (line : Str) : Except DMLError Bool :=
  if value = lit "true" then .ok true
  else if value = lit "false" then .ok false
  else .error ⟨.typeErr, lineNum, col, lit "Boolean must be 'true' or 'false'", line⟩

/-- Element inference of `parseList`'s loop body, for one already-trimmed,
nonempty item: quoted → string (all edge quotes trimmed), else `Atoi`, else
`ParseFloat`, else `true`/`false`, else the raw text. -/
def inferListItem (item : Str) : GoVal :=
  if hasPrefix ['"'] item ∧ hasSuffix ['"'] item then .vstr (goTrim item ['"'])
  else match goAtoi item with
  | some n => .vint n
  | none =>
    match goParseFloat item with
    | some q => .vfloat q
    | none =>
      if item = lit "true" ∨ item = lit "false" then .vbool (item = lit "true")
      else .vstr item

/-- `parseList` (multi-line parser variant): brackets checked, interior is
`strings.Trim(value, "[]")` then `strings.TrimSpace`, split on **every** comma
by `strings.Split`, empty items skipped, each item inferred. -/
def parseListGo (value : Str) (lineNum col : Nat) (line : Str) : Except DMLError (List GoVal) :=
  if hasPrefix ['['] value ∧ hasSuffix [']'] value then
    let content := trimSpace (goTrim value ['[', ']'])
    if content = [] then .ok []
    else
      .ok ((splitChar ',' content).filterMap fun item =>
        let item := trimSpace item
        if item = [] then none else some (inferListItem item))
  else
    .error ⟨.typeErr, lineNum, col, lit "List must be enclosed in square brackets []", line⟩

/-- The quote- and bracket-aware splitter `smartSplit`, as the loop state
recursion: `depth` counts unquoted `{`/`[` minus `}`/`]`, `inQ` flags an open
double quote, `cur` is the pending chunk. -/
def ssAux (delim : Char) : Str → Int → Bool → Str → List Str
  | [], _, _, cur => if cur.length > 0 then [cur] else []
  | c :: rest, depth, inQ, cur =>
    if c = '"' then ssAux delim rest depth (!inQ) (cur ++ [c])
    else
      let depth' :=
        if !inQ && (c = '{' || c = '[') then depth + 1
        else if !inQ && (c = '}' || c = ']') then depth - 1
        else depth
      if c = delim ∧ depth' = 0 ∧ !inQ then cur :: ssAux delim rest depth' inQ []
      else ssAux delim rest depth' inQ (cur ++ [c])

/-- `smartSplit`. -/
def smartSplit (s : Str) (delim : Char) : List Str := ssAux delim s 0 false []

/-! `parseMap`, `parseMapValue` and the loop over map entries.  The Go
recursion (`parseMap` → `parseMapValue` → `parseMap`, on strictly shorter
strings) is made structural with a fuel parameter on `parseMapValueF`;
`parseMapCore` is the body of `parseMap` with the map-value parser abstracted,
and the entry loop is the fold.  `parseMapValueF` is total: it discards errors
of nested parses, falling back to the raw text, exactly as the Go code's
`err == nil` checks do. -/

/-- The body of `parseMap`: brace check, interior extraction
(`strings.Trim(value, "{}")` then `TrimSpace`), `smartSplit` on commas, and
the entry loop (`key: value` split, quote-trimmed key, map-value inference via
the supplied `pmv`). -/
def parseMapCore (pmv : Str → GoVal) (value : Str) (lineNum col : Nat) (line : Str) :
    Except DMLError GoMap :=
  if hasPrefix ['{'] value ∧ hasSuffix ['}'] value then
    let content := trimSpace (goTrim value ['{', '}'])
    if content = [] then .ok []
    else
      (smartSplit content ',').foldlM
        (fun acc pair =>
          let pair := trimSpace pair
          if pair = [] then .ok acc
          else
            match splitFirst ':' pair with
            | none =>
              .error ⟨.typeErr, lineNum, col, lit "Map entries must be in 'key: value' format",
                line⟩
            | some (k, v) =>
              .ok (insertA acc (goTrim (trimSpace k) ['"']) (pmv (trimSpace v))))
        []
  else
    .error ⟨.typeErr, lineNum, col, lit "Map must be enclosed in curly braces {}", line⟩

/-- `parseMapValue`, fuelled: quoted → string, `true`/`false`, `Atoi`,
`ParseFloat`, then nested `{…}` map or `[…]` list when they parse, else the
raw text. -/
def parseMapValueF : Nat → Str → GoVal
  | 0, val => .vstr val
  | fuel + 1, val =>
    let val := trimSpace val
    if hasPrefix ['"'] val ∧ hasSuffix ['"'] val then .vstr (goTrim val ['"'])
    else if val = lit "true" then .vbool true
    else if val = lit "false" then .vbool false
    else match goAtoi val with
    | some n => .vint n
    | none =>
      match goParseFloat val with
      | some q => .vfloat q
      | none =>
        if hasPrefix ['{'] val ∧ hasSuffix ['}'] val then
          match parseMapCore (parseMapValueF fuel) val 0 0 [] with
          | .ok nested => .vmap nested
          | .error _ =>
            if hasPrefix ['['] val ∧ hasSuffix [']'] val then
              match parseListGo val 0 0 [] with
              | .ok nested => .vlist nested
              | .error _ => .vstr val
            else .vstr val
        else if hasPrefix ['['] val ∧ hasSuffix [']'] val then
          match parseListGo val 0 0 [] with
          | .ok nested => .vlist nested
          | .error _ => .vstr val
        else .vstr val

/-- `parseMap`: the fuel `value.length + 2` can never be exhausted, because
each nested `parseMap` recursion strictly shortens the string by at least two
characters (braces and a colon are stripped before recursing). -/
def parseMapGo (value : Str) (lineNum col : Nat) (line : Str) : Except DMLError GoMap :=
  parseMapCore (parseMapValueF (value.length + 2)) value lineNum col line

/-- `isValidIdentifier` (multi-line parser variant): first character a letter
or underscore, subsequent characters letters, digits, underscores or dots. -/
def isIdentStart (c : Char) : Bool :=
  ('a' ≤ c && c ≤ 'z') || ('A' ≤ c && c ≤ 'Z') || c = '_'

def isIdentCont (c : Char) : Bool :=
  ('a' ≤ c && c ≤ 'z') || ('A' ≤ c && c ≤ 'Z') || ('0' ≤ c && c ≤ '9') || c = '_' || c = '.'

def isValidIdentifier (name : Str) : Bool :=
  match name with
  | [] => false
  | c :: rest => isIdentStart c && rest.all isIdentCont

/-- `parseValue` (multi-line parser variant): keyword dispatch, including the
`number` and `boolean` aliases. -/
def parseValueGo (varType value : Str) (lineNum col : Nat) (line : Str) :
    Except DMLError GoVal :=
  if varType = lit "string" then (parseStringGo value lineNum col line).map .vstr
  else if varType = lit "int" ∨ varType = lit "number" then
    (parseIntGo value lineNum col line).map .vint
  else if varType = lit "float" then (parseFloatGo value lineNum col line).map .vfloat
  else if varType = lit "bool" ∨ varType = lit "boolean" then
    (parseBoolGo value lineNum col line).map .vbool
  else if varType = lit "list" then (parseListGo value lineNum col line).map .vlist
  else if varType = lit "map" then (parseMapGo value lineNum col line).map .vmap
  else
    .error ⟨.validationErr, lineNum, col, lit "Unknown type: " ++ varType, line⟩

/-- The descent of `resolveNestedKey`: starting from a value (initially the
root map), follow each path segment through `Map` values; any absent segment
or non-`Map` intermediate yields not-found. -/
def resolveVal (v : GoVal) : List Str → Option GoVal
  | [] => some v
  | p :: rest =>
    match v with
    | .vmap m =>
      match lookupA m p with
      | some v' => resolveVal v' rest
      | none => none
    | _ => none

/-- `resolveNestedKey` from `config.go`: split the key on `.` and descend. -/
def resolveNestedKey (data : GoMap) (key : Str) : Option GoVal :=
  resolveVal (.vmap data) (splitChar '.' key)

/-- The descent of `setNestedKey` from `config.go`, on the split path: create
an empty map for a missing intermediate segment; if an existing intermediate
is not a map, return with the tree unchanged (the Go function's bare
`return`); assign the final segment. -/
def setParts (data : GoMap) : List Str → GoVal → GoMap
  | [], _ => data
  | [last], v => insertA data last v
  | p :: q :: rest, v =>
    match lookupA data p with
    | none => insertA data p (.vmap (setParts [] (q :: rest) v))
    | some (.vmap m) => insertA data p (.vmap (setParts m (q :: rest) v))
    | some _ => data

/-- `setNestedKey`. -/
def setNestedKey (data : GoMap) (key : Str) (v : GoVal) : GoMap :=
  setParts data (splitChar '.' key) v

/-- `Config.Set` from `config.go`. -/
def Config.set (c : Config) (key : Str) (v : GoVal) : Config :=
  { c with data := setNestedKey c.data key v }

/-- `GetString` from `config.go`. -/
def getString (c : Config) (key : Str) : Str :=
  match resolveNestedKey c.data key with
  | some (.vstr s) => s
  | _ => []

/-- Go `int(f)` conversion of a float64: truncation toward zero. -/
def GoFloat.toIntTrunc (f : GoFloat) : Int :=
  if 0 ≤ f.exp then f.man * 10 ^ f.exp.toNat else Int.tdiv f.man (10 ^ (-f.exp).toNat)

/-- Go `float64(n)` conversion of an int. -/
def intToGoFloat (n : Int) : GoFloat := mkGoFloat n 0

/-- `GetInt` from `config.go`: an `int` value is returned as is, a `float64`
value is converted with `int(v)`, anything else (or an absent key) yields 0. -/
def getInt (c : Config) (key : Str) : Int :=
  match resolveNestedKey c.data key with
  | some (.vint n) => n
  | some (.vfloat q) => q.toIntTrunc
  | _ => 0

/-- `GetFloat` from `config.go`: a `float64` value is returned as is, an `int`
value is converted with `float64(v)`, anything else yields 0.0. -/
def getFloat (c : Config) (key : Str) : GoFloat :=
  match resolveNestedKey c.data key with
  | some (.vfloat q) => q
  | some (.vint n) => intToGoFloat n
  | _ => ⟨0, 0⟩

/-- `GetBool` from `config.go`. -/
def getBool (c : Config) (key : Str) : Bool :=
  match resolveNestedKey c.data key with
  | some (.vbool b) => b
  | _ => false

/-- `GetList` from `config.go`. -/
def getList (c : Config) (key : Str) : List GoVal :=
  match resolveNestedKey c.data key with
  | some (.vlist xs) => xs
  | _ => []

/-- `GetMap` from `config.go`. -/
def getMap (c : Config) (key : Str) : GoMap :=
  match resolveNestedKey c.data key with
  | some (.vmap m) => m
  | _ => []

/-- `MustString` from `config.go`; the Go `panic` is modelled as `none`. -/
def mustString (c : Config) (key : Str) : Option Str :=
  match resolveNestedKey c.data key with
  | some (.vstr s) => some s
  | _ => none

/-- `MustInt` from `config.go`. -/
def mustInt (c : Config) (key : Str) : Option Int :=
  match resolveNestedKey c.data key with
  | some (.vint n) => some n
  | some (.vfloat q) => some q.toIntTrunc
  | _ => none

/-- `MustFloat` from `config.go`. -/
def mustFloat (c : Config) (key : Str) : Option GoFloat :=
  match resolveNestedKey c.data key with
  | some (.vfloat q) => some q
  | some (.vint n) => some (intToGoFloat n)
  | _ => none

/-- `MustBool` from `config.go`. -/
def mustBool (c : Config) (key : Str) : Option Bool :=
  match resolveNestedKey c.data key with
  | some (.vbool b) => some b
  | _ => none

/-- `handleMapStyleDirective`. -/
def handleMapStyleDirective (c : Config) (value : Str) (lineNum : Nat) :
    Except DMLError Config :=
  let v := goToLower value
  if v = lit "json" then .ok { c with mapStyle := .json }
  else if v = lit "flat" then .ok { c with mapStyle := .flat }
  else if v = lit "auto" then .ok { c with mapStyle := .auto }
  else
    .error ⟨.validationErr, lineNum, 1,
      lit "Invalid mapStyle value: " ++ value ++ lit " (expected: json, flat, or auto)", value⟩

/-- `parseDirective`. -/
def parseDirective (c : Config) (line : Str) (lineNum : Nat) : Except DMLError Config :=
  let line := trimSpace (trimPrefix ['@'] line)
  let parts := goFields line
  match parts with
  | directive :: value :: _ =>
    if directive = lit "mapStyle" then handleMapStyleDirective c value lineNum
    else
      .error ⟨.validationErr, lineNum, 1, lit "Unknown directive: @" ++ directive, line⟩
  | _ =>
    .error ⟨.validationErr, lineNum, 1, lit "Invalid directive: @" ++ line, line⟩

/-- `parseLine` (multi-line parser variant): strip the trailing `;`, split on
the first `=`, split the declaration into type and name, validate the
identifier, parse the literal (with the column argument fixed to 1), and
assign the value at the dotted path via `Set`. -/
def parseLineGo (c : Config) (line : Str) (lineNum : Nat) (originalLine : Str) :
    Except DMLError Config :=
  let line := trimSuffix [';'] (trimSpace line)
  match splitFirst '=' line with
  | none =>
    .error ⟨.syntaxErr, lineNum, 1, lit "Missing '=' operator in variable declaration",
      originalLine⟩
  | some (lhs, rhs) =>
    let declaration := trimSpace lhs
    let value := trimSpace rhs
    match goFields declaration with
    | [varType, varName] =>
      if isValidIdentifier varName then
        match parseValueGo varType value lineNum 1 originalLine with
        | .ok v => .ok (c.set varName v)
        | .error e => .error e
      else
        let col := match goIndexOf originalLine varName with
          | some i => i + 1
          | none => 1
        .error ⟨.validationErr, lineNum, col,
          lit "Invalid identifier. Must start with letter or underscore, and contain only letters, digits, underscores, or dots",
          originalLine⟩
    | _ =>
      .error ⟨.validationErr, lineNum, 1,
        lit "Invalid variable declaration format. Expected: type name = value", originalLine⟩

/-- The statement-assembly loop of `Parse` (multi-line parser variant).
`idx` is the 0-based index of the current physical line, `inMulti`/`buf`/
`mStart` the multi-line accumulation state.  A multi-line statement starts at
a line containing `{` or `[` that does not end with `;`, and ends at the first
subsequent line that ends with `;`; no bracket depth is tracked. -/
def parseLinesGo (c : Config) : List Str → Nat → Bool → Str → Nat → Except DMLError Config
  | [], _, inMulti, buf, mStart =>
    if inMulti then
      .error ⟨.syntaxErr, mStart, 1, lit "Unclosed declaration (missing ';')", buf⟩
    else .ok c
  | orig :: rest, idx, inMulti, buf, mStart =>
    let line := trimSpace orig
    if ¬inMulti ∧ (line = [] ∨ hasPrefix ['/', '/'] line) then
      parseLinesGo c rest (idx + 1) inMulti buf mStart
    else if ¬inMulti ∧ hasPrefix ['@'] line then
      match parseDirective c line (idx + 1) with
      | .ok c' => parseLinesGo c' rest (idx + 1) inMulti buf mStart
      | .error e => .error e
    else if ¬inMulti ∧ (line.contains '{' ∨ line.contains '[') ∧ ¬hasSuffix [';'] line then
      parseLinesGo c rest (idx + 1) true (line ++ [' ']) (idx + 1)
    else if inMulti then
      let buf' := buf ++ line ++ [' ']
      if hasSuffix [';'] line then
        match parseLineGo c buf' mStart buf' with
        | .ok c' => parseLinesGo c' rest (idx + 1) false [] mStart
        | .error e => .error e
      else parseLinesGo c rest (idx + 1) true buf' mStart
    else if ¬hasSuffix [';'] line then
      .error ⟨.syntaxErr, idx + 1, line.length, lit "Missing semicolon at the end of declaration",
        orig⟩
    else
      match parseLineGo c line (idx + 1) orig with
      | .ok c' => parseLinesGo c' rest (idx + 1) inMulti buf mStart
      | .error e => .error e

/-- `Config.Parse` (multi-line parser variant): split the source on newlines
and run the assembly loop on a fresh state. -/
def goParse (content : Str) : Except DMLError Config :=
  parseLinesGo Config.new (splitChar '\n' content) 0 false [] 0



/-- Byte-wise lexicographic string order (`sort.Strings`). -/
def strLe : Str → Str → Bool
  | [], _ => true
  | _ :: _, [] => false
  | a :: as, b :: bs => if a < b then true else if b < a then false else strLe as bs

/-- Insertion into a key-sorted association list. -/
def insertSorted (p : Str × GoVal) : GoMap → GoMap
  | [] => [p]
  | q :: rest => if strLe p.1 q.1 then p :: q :: rest else q :: insertSorted p rest

/-- The serializer's deterministic traversal order: the map's pairs sorted by
key (Go sorts the key slice with `sort.Strings` and indexes the map; on an
association list with unique keys this is sorting the pairs by key). -/
def sortPairs : GoMap → GoMap
  | [] => []
  | p :: rest => insertSorted p (sortPairs rest)

theorem perm_insertSorted (p : Str × GoVal) :
    ∀ l : GoMap, List.Perm (insertSorted p l) (p :: l)
  | [] => by simp [insertSorted]
  | q :: rest => by
    by_cases hle : strLe p.1 q.1 = true
    · simp [insertSorted, hle]
    · simp only [insertSorted, hle, if_false]
      exact ((perm_insertSorted p rest).cons q).trans (List.Perm.swap _ _ _)

theorem perm_sortPairs : ∀ l : GoMap, List.Perm (sortPairs l) l
  | [] => by simp [sortPairs]
  | p :: rest =>
    (perm_insertSorted p (sortPairs rest)).trans ((perm_sortPairs rest).cons p)

theorem sizeOf_eq_of_perm {l l' : GoMap} (h : List.Perm l l') : sizeOf l = sizeOf l' := by
  induction h with
  | nil => rfl
  | cons x _ ih => simp [ih]
  | swap x y l => simp; omega
  | trans _ _ ih1 ih2 => omega

theorem sizeOf_sortPairs (m : GoMap) : sizeOf (sortPairs m) = sizeOf m :=
  sizeOf_eq_of_perm (perm_sortPairs m)

/-- `hasNestedStructures`. -/
def hasNestedStructures (m : GoMap) : Bool :=
  m.any fun p => match p.2 with
    | .vmap _ => true
    | .vlist _ => true
    | _ => false

/-- `%v`/`%d` rendering of an integer. -/
def goFormatInt (i : Int) : Str :=
  if i < 0 then '-' :: Nat.toDigits 10 i.natAbs else Nat.toDigits 10 i.natAbs

/-- `%v`/`%g` rendering of a float64, modelled as the exact shortest plain
decimal form (exponent notation for extreme magnitudes is not modelled; no
claim evaluates the serializer at such values). -/
def formatGoFloat (q : GoFloat) : Str :=
  if 0 ≤ q.exp then goFormatInt (q.man * 10 ^ q.exp.toNat)
  else
    let f := (-q.exp).toNat
    let ds := Nat.toDigits 10 q.man.natAbs
    let ds := if ds.length ≤ f then List.replicate (f + 1 - ds.length) '0' ++ ds else ds
    (if q.man < 0 then ['-'] else []) ++ ds.take (ds.length - f) ++ '.' :: ds.drop (ds.length - f)

/-! Go's universal `%v` rendering of dynamic values (lists space separated in
brackets, maps rendered `map[k:v …]` with sorted keys). -/

mutual

def goFormatV (v : GoVal) : Str :=
  match v with
  | .vstr s => s
  | .vint n => goFormatInt n
  | .vfloat q => formatGoFloat q
  | .vbool b => if b then lit "true" else lit "false"
  | .vlist xs => '[' :: List.intercalate [' '] (goFormatVList xs) ++ [']']
  | .vmap m => lit "map[" ++ List.intercalate [' '] (goFormatVEntries (sortPairs m)) ++ [']']
termination_by (sizeOf v, 1)
decreasing_by
  all_goals refine Prod.Lex.left _ _ ?_
  all_goals try rw [sizeOf_sortPairs]
  all_goals simp
  all_goals omega

def goFormatVList (xs : List GoVal) : List Str :=
  match xs with
  | [] => []
  | v :: rest => goFormatV v :: goFormatVList rest
termination_by (sizeOf xs, 0)
decreasing_by
  all_goals exact Prod.Lex.left _ _ (by simp; try omega)

def goFormatVEntries (l : GoMap) : List Str :=
  match l with
  | [] => []
  | (k, v) :: rest => (k ++ ':' :: goFormatV v) :: goFormatVEntries rest
termination_by (sizeOf l, 0)
decreasing_by
  all_goals exact Prod.Lex.left _ _ (by simp; try omega)

end

/-- `dumpScalar`: scalars with their inferred keyword (`string`, `number` for
both int and float64, `boolean`); the `default` branch renders like a string
via `%v`. -/
def dumpScalar (key : Str) (v : GoVal) : Str :=
  match v with
  | .vstr s => lit "string " ++ key ++ lit " = \"" ++ s ++ lit "\";\n"
  | .vint n => lit "number " ++ key ++ lit " = " ++ goFormatInt n ++ lit ";\n"
  | .vfloat q => lit "number " ++ key ++ lit " = " ++ formatGoFloat q ++ lit ";\n"
  | .vbool b =>
    lit "boolean " ++ key ++ lit " = " ++ (if b then lit "true" else lit "false") ++ lit ";\n"
  | v => lit "string " ++ key ++ lit " = \"" ++ goFormatV v ++ lit "\";\n"

/-- `dumpArray`: `list key = [e1, e2, …];` with strings quoted and other
elements rendered with `%v`. -/
def dumpArray (key : Str) (arr : List GoVal) : Str :=
  lit "list " ++ key ++ lit " = [" ++
    List.intercalate (lit ", ")
      (arr.map fun v =>
        match v with
        | .vstr s => '"' :: s ++ ['"']
        | v => goFormatV v) ++ lit "];\n\n"

/-! The serializer recursion `dumpData`/`dumpValue`/`dumpMap`/
`dumpInlineValue`; the loops over sorted entries are the `…Entries` helpers. -/

mutual

def dumpDataW (m : GoMap) (pre : Str) (style : MapStyle) : Str :=
  dumpEntriesW (sortPairs m) pre style
termination_by (sizeOf m, 3)
decreasing_by
  rw [sizeOf_sortPairs]
  exact Prod.Lex.right _ (by omega)

def dumpEntriesW (l : GoMap) (pre : Str) (style : MapStyle) : Str :=
  match l with
  | [] => []
  | (k, v) :: rest =>
    dumpValueW (if pre = [] then k else pre ++ '.' :: k) v style ++
      dumpEntriesW rest pre style
termination_by (sizeOf l, 2)
decreasing_by
  all_goals exact Prod.Lex.left _ _ (by simp; try omega)

def dumpValueW (key : Str) (v : GoVal) (style : MapStyle) : Str :=
  match v with
  | .vmap m => dumpMapW key m style
  | .vlist xs => dumpArray key xs
  | v => dumpScalar key v
termination_by (sizeOf v, 1)
decreasing_by
  exact Prod.Lex.left _ _ (by simp; try omega)

def dumpMapW (key : Str) (m : GoMap) (style : MapStyle) : Str :=
  match style with
  | .json =>
    lit "map " ++ key ++ lit " = \x7b\n" ++ dumpBlockEntriesW (sortPairs m) ++ lit "\x7d;\n\n"
  | .flat => dumpDataW m key .flat
  | .auto =>
    if 3 < m.length ∨ hasNestedStructures m then
      lit "map " ++ key ++ lit " = \x7b\n" ++ dumpBlockEntriesW (sortPairs m) ++ lit "\x7d;\n\n"
    else dumpDataW m key .auto
termination_by (sizeOf m, 4)
decreasing_by
  all_goals first
    | exact Prod.Lex.right _ (by omega)
    | (rw [sizeOf_sortPairs]; exact Prod.Lex.right _ (by omega))

def dumpBlockEntriesW (l : GoMap) : Str :=
  match l with
  | [] => []
  | [(k, v)] => lit "  \"" ++ k ++ lit "\": " ++ dumpInlineW v ++ lit "\n"
  | (k, v) :: q :: rest =>
    lit "  \"" ++ k ++ lit "\": " ++ dumpInlineW v ++ lit ",\n" ++
      dumpBlockEntriesW (q :: rest)
termination_by (sizeOf l, 2)
decreasing_by
  all_goals first
    | exact Prod.Lex.left _ _ (by simp; try omega)
    | exact Prod.Lex.left _ _ (by obtain ⟨a, b⟩ := q; simp; omega)

def dumpInlineW (v : GoVal) : Str :=
  match v with
  | .vstr s => '"' :: s ++ ['"']
  | .vint n => goFormatInt n
  | .vfloat q => formatGoFloat q
  | .vbool b => if b then lit "true" else lit "false"
  | .vmap m =>
    lit "\x7b " ++ List.intercalate (lit ", ") (dumpInlineEntriesW (sortPairs m)) ++ lit " \x7d"
  | .vlist xs => '[' :: List.intercalate (lit ", ") (dumpInlineListW xs) ++ [']']
termination_by (sizeOf v, 1)
decreasing_by
  all_goals refine Prod.Lex.left _ _ ?_
  all_goals try rw [sizeOf_sortPairs]
  all_goals simp
  all_goals omega

def dumpInlineEntriesW (l : GoMap) : List Str :=
  match l with
  | [] => []
  | (k, v) :: rest => ('"' :: k ++ lit "\": " ++ dumpInlineW v) :: dumpInlineEntriesW rest
termination_by (sizeOf l, 0)
decreasing_by
  all_goals exact Prod.Lex.left _ _ (by simp; try omega)

def dumpInlineListW (xs : List GoVal) : List Str :=
  match xs with
  | [] => []
  | v :: rest => dumpInlineW v :: dumpInlineListW rest
termination_by (sizeOf xs, 0)
decreasing_by
  all_goals exact Prod.Lex.left _ _ (by simp; try omega)

end

/-- `Config.Dump`: the style header (for `json` and `flat`) followed by the
rendered tree.  (`getEffectiveMapStyle` falls back to the process-wide
`globalMapStyle` when the config's style is Auto; the global default Auto is
what is modelled.) -/
def goDump (c : Config) : Str :=
  let header :=
    match c.mapStyle with
    | .json => lit "@mapStyle json\n\n"
    | .flat => lit "@mapStyle flat\n\n"
    | .auto => []
  header ++ dumpDataW c.data [] c.mapStyle

/-- `DefaultPolicy` (README / `policy_test.go`). -/
structure DefaultPolicy where
  override : Bool
  strictTypes : Bool
  onlyMissing : Bool
  skipIfPresent : Bool

/-- The README `Config.Get` descent on a split path: walk the first `n-1`
segments through maps, then index the final segment. -/
def readmeGetParts (data : GoMap) : List Str → Option GoVal
  | [] => none
  | [last] => lookupA data last
  | p :: q :: rest =>
    match lookupA data p with
    | some (.vmap m) => readmeGetParts m (q :: rest)
    | _ => none

/-- The README `Config.Get`. -/
def readmeGet (data : GoMap) (key : Str) : Option GoVal :=
  readmeGetParts data (splitChar '.' key)

/-- Go type names as printed by `%T`, for the six dynamic kinds. -/
def kindGoName : GoKind → Str
  | .str => lit "string"
  | .int => lit "int"
  | .float => lit "float64"
  | .bool => lit "bool"
  | .list => lit "[]interface {}"
  | .map => lit "map[string]interface {}"

/-- `typesMatch` (README): `reflect.TypeOf` equality, which on the dynamic
value model is equality of the variant kind. -/
def typesMatch (a b : GoVal) : Bool := a.kind = b.kind

/-- `applyDefault` (README, exercised by `policy_test.go`): per-key policy
evaluation over the in-memory tree; the Go mutation of `c.data` is modelled
by returning the new tree, errors as `Except.error` (the `defaultKeys`
metadata update is omitted).  The README `Config.Set` used here overwrites a
non-map intermediate with a fresh map, unlike `config.go`'s `setNestedKey`;
no claim exercises that difference, and the ordinary single-segment
assignment of both is `insertA`, so the README `Set` is modelled by
`setNestedKey` on the single-segment keys the policy tests use. -/
def applyDefault (data : GoMap) (key : Str) (v : GoVal) (policy : DefaultPolicy) :
    Except Str GoMap :=
  let existing := readmeGet data key
  if policy.onlyMissing ∧ existing.isSome then .ok data
  else if ¬policy.override ∧ existing.isSome then .ok data
  else
    match existing with
    | some current =>
      if policy.strictTypes ∧ ¬typesMatch current v then
        .error (lit "type mismatch for key '" ++ key ++ lit "': expected " ++
          kindGoName current.kind ++ lit ", got " ++ kindGoName v.kind)
      else .ok (setNestedKey data key v)
    | none => .ok (setNestedKey data key v)

/-- `ApplyDefaults` (README): load the tree, short-circuit on `SkipIfPresent`,
apply each default in turn aborting on the first error, and save.  File
loading/saving is abstracted to the tree itself; a returned error means
`SaveToFile` is never reached.  Go iterates the defaults map in unspecified
order; the model takes an explicit list. -/
def applyDefaultsGo (data : GoMap) (defaults : List (Str × GoVal)) (policy : DefaultPolicy) :
    Except Str GoMap :=
  if policy.skipIfPresent ∧ 0 < data.length then .ok data
  else
    defaults.foldlM (fun d p => applyDefault d p.1 p.2 policy) data

/-- The persistent state after `ApplyDefaults(file, …)`: on success the saved
tree, on error the file is untouched, paired with the error. -/
def applyDefaultsFile (data : GoMap) (defaults : List (Str × GoVal))
    (policy : DefaultPolicy) : GoMap × Option Str :=
  match applyDefaultsGo data defaults policy with
  | .ok d => (d, none)
  | .error e => (data, some e)

/-! Specification-side definitions, written from the claims' wording, to be
compared with the translated code. -/

/-- Spec side (claims C1, C5): removing exactly the two delimiting quotes of
a string literal — the first and last characters. -/
def stripDelimQuotes (l : Str) : Str := (l.drop 1).dropLast

/-- Spec side (claim C3): the bracket-depth counter the claim describes —
`{`/`[` increment and `}`/`]` decrement, except inside double quotes. -/
def specDepthAux : Str → Int → Bool → Int
  | [], d, _ => d
  | c :: rest, d, inQ =>
    if c = '"' then specDepthAux rest d (!inQ)
    else if ¬inQ ∧ (c = '{' ∨ c = '[') then specDepthAux rest (d + 1) inQ
    else if ¬inQ ∧ (c = '}' ∨ c = ']') then specDepthAux rest (d - 1) inQ
    else specDepthAux rest d inQ

/-- Spec side (claim C3): quote-aware bracket depth of a text. -/
def specBracketDepth (l : Str) : Int := specDepthAux l 0 false

/-- Spec side (claim C4, amended): element inference in the claim's own
order — quoted text → String (all edge quotes trimmed), `true`/`false` →
Bool, otherwise an Int parse is attempted, then a Float parse, then the raw
text is kept as a String. -/
def specInferItem (item : Str) : GoVal :=
  if hasPrefix ['"'] item ∧ hasSuffix ['"'] item then .vstr (goTrim item ['"'])
  else if item = lit "true" ∨ item = lit "false" then .vbool (item = lit "true")
  else match goAtoi item with
  | some n => .vint n
  | none =>
    match goParseFloat item with
    | some q => .vfloat q
    | none => .vstr item

/-- Spec side (claim C4, amended): the list literal parser as the amended
claim words it — brackets checked, the interior (all leading and trailing
bracket characters stripped, then trimmed) split on **every** comma, empty
elements dropped, each element independently type-inferred by
`specInferItem`; an empty interior yields the empty list. -/
def parseListSpec (value : Str) (lineNum col : Nat) (line : Str) :
    Except DMLError (List GoVal) :=
  if hasPrefix ['['] value ∧ hasSuffix [']'] value then
    let content := trimSpace (goTrim value ['[', ']'])
    if content = [] then .ok []
    else
      .ok ((((splitChar ',' content).map trimSpace).filter (· ≠ [])).map specInferItem)
  else
    .error ⟨.typeErr, lineNum, col, lit "List must be enclosed in square brackets []", line⟩

/-- The descent position at which `setNestedKey` would meet an existing
non-map intermediate: `true` iff the prefix of the first `j + 1` segments
resolves to an existing value that is not a map. -/
def isBadPrefix (data : GoMap) (parts : List Str) (j : Nat) : Bool :=
  match resolveVal (.vmap data) (parts.take (j + 1)) with
  | some w => !w.isMapKind
  | none => false

/-- The assembled single-line declaration `<type> <name> = <literal>;`. -/
def mkDecl (t name litv : Str) : Str :=
  t ++ ' ' :: name ++ ' ' :: '=' :: ' ' :: (litv ++ [';'])

/-- The recognised type keywords. -/
def isTypeKeyword (t : Str) : Bool :=
  t = lit "string" ∨ t = lit "int" ∨ t = lit "number" ∨ t = lit "float" ∨
    t = lit "bool" ∨ t = lit "boolean" ∨ t = lit "list" ∨ t = lit "map"

/-- Kind agreement between a declared type keyword and a parsed value. -/
def kindMatchesKeyword (t : Str) (v : GoVal) : Bool :=
  if t = lit "string" then v.kind = GoKind.str
  else if t = lit "int" ∨ t = lit "number" then v.kind = GoKind.int
  else if t = lit "float" then v.kind = GoKind.float
  else if t = lit "bool" ∨ t = lit "boolean" then v.kind = GoKind.bool
  else if t = lit "list" then v.kind = GoKind.list
  else if t = lit "map" then v.kind = GoKind.map
  else false

/-! Association-list and path lemmas. -/

theorem lookupA_insertA_self (m : GoMap) (k : Str) (v : GoVal) :
    lookupA (insertA m k v) k = some v := by
  induction m with
  | nil => simp [insertA, lookupA]
  | cons p rest ih =>
    obtain ⟨k', v'⟩ := p
    by_cases h : k' = k
    · simp [insertA, lookupA, h]
    · simp [insertA, lookupA, h, ih]

theorem insertA_self_of_lookup {m : GoMap} {k : Str} {v : GoVal}
    (h : lookupA m k = some v) : insertA m k v = m := by
  induction m with
  | nil => simp [lookupA] at h
  | cons p rest ih =>
    obtain ⟨k', v'⟩ := p
    by_cases hk : k' = k
    · subst hk
      have hv : v' = v := by simpa [lookupA] using h
      simp [insertA, hv]
    · simp only [lookupA, hk, if_neg hk] at h
      simp [insertA, hk, ih h]

theorem splitChar_ne_nil (sep : Char) (l : Str) : splitChar sep l ≠ [] := by
  cases l with
  | nil => simp [splitChar]
  | cons c rest =>
    simp only [splitChar]
    match splitChar sep rest with
    | f :: fs =>
      by_cases h : c = sep <;> simp [h]
    | [] => simp

/-- The single resolve-after-set lemma behind C1 and C10: if no existing
intermediate segment of the path holds a non-map value, `setNestedKey`'s
descent stores the value so that `resolveNestedKey`'s descent finds it. -/
theorem resolve_setParts (parts : List Str) (data : GoMap) (v : GoVal)
    (hne : parts ≠ [])
    (hgood : ∀ j, j < parts.length - 1 → isBadPrefix data parts j = false) :
    resolveVal (.vmap (setParts data parts v)) parts = some v := by
  induction parts generalizing data with
  | nil => exact absurd rfl hne
  | cons p rest ih =>
    cases rest with
    | nil =>
      simp [setParts, resolveVal, lookupA_insertA_self]
    | cons q rest' =>
      have h0 := hgood 0 (by simp)
      simp only [isBadPrefix, List.take, resolveVal] at h0
      cases hl : lookupA data p with
      | none =>
        simp only [setParts, hl]
        simp only [resolveVal, lookupA_insertA_self]
        refine ih _ (by simp) ?_
        intro j hj
        simp only [isBadPrefix]
        have htake : (q :: rest').take (j + 1) = q :: rest'.take j := rfl
        rw [htake]
        simp [resolveVal, lookupA]
      | some w =>
        rw [hl] at h0
        cases w with
        | vmap m =>
          simp only [setParts, hl]
          simp only [resolveVal, lookupA_insertA_self]
          refine ih _ (by simp) ?_
          intro j hj
          have hj' := hgood (j + 1) (by simp at hj ⊢; omega)
          simp only [isBadPrefix] at hj' ⊢
          have htake : (p :: q :: rest').take (j + 2) = p :: (q :: rest').take (j + 1) := rfl
          rw [htake] at hj'
          simp only [resolveVal, hl] at hj'
          exact hj'
        | vstr s => simp [GoVal.isMapKind] at h0
        | vint n => simp [GoVal.isMapKind] at h0
        | vfloat q' => simp [GoVal.isMapKind] at h0
        | vbool b => simp [GoVal.isMapKind] at h0
        | vlist xs => simp [GoVal.isMapKind] at h0

/-- C7, core: if the descent meets an existing non-map intermediate, the tree
comes back exactly unchanged. -/
theorem setParts_unchanged (parts : List Str) (data : GoMap) (v : GoVal)
    (hbad : ∃ j, j < parts.length - 1 ∧ isBadPrefix data parts j = true) :
    setParts data parts v = data := by
  induction parts generalizing data with
  | nil =>
    obtain ⟨j, hj, _⟩ := hbad
    simp at hj
  | cons p rest ih =>
    cases rest with
    | nil =>
      obtain ⟨j, hj, _⟩ := hbad
      simp at hj
    | cons q rest' =>
      obtain ⟨j, hj, hbadj⟩ := hbad
      cases j with
      | zero =>
        simp only [isBadPrefix, List.take, resolveVal] at hbadj
        cases hl : lookupA data p with
        | none => rw [hl] at hbadj; simp at hbadj
        | some w =>
          rw [hl] at hbadj
          simp only [resolveVal] at hbadj
          cases w with
          | vmap m => simp [GoVal.isMapKind] at hbadj
          | vstr s => simp [setParts, hl]
          | vint n => simp [setParts, hl]
          | vfloat q' => simp [setParts, hl]
          | vbool b => simp [setParts, hl]
          | vlist xs => simp [setParts, hl]
      | succ j' =>
        simp only [isBadPrefix] at hbadj
        have htake : (p :: q :: rest').take (j' + 2) = p :: (q :: rest').take (j' + 1) := rfl
        rw [htake] at hbadj
        simp only [resolveVal] at hbadj
        cases hl : lookupA data p with
        | none => rw [hl] at hbadj; simp at hbadj
        | some w =>
          rw [hl] at hbadj
          cases w with
          | vmap m =>
            have hm : setParts m (q :: rest') v = m := by
              refine ih _ ⟨j', ?_, ?_⟩
              · simp at hj ⊢; omega
              · simpa [isBadPrefix] using hbadj
            simp [setParts, hl, hm, insertA_self_of_lookup hl]
          | vstr s => simp at hbadj
          | vint n => simp at hbadj
          | vfloat q'' => simp at hbadj
          | vbool b => simp at hbadj
          | vlist xs => simp at hbadj

/-- **C7.** For every `Config` value tree and every dotted path of two or
more segments, if some existing intermediate segment holds a non-map value
(the descended prefix resolves to an existing value that is not a `Map`),
then `Set(path, value)` silently aborts the assignment: `setNestedKey` (which
has no error channel at all, so nothing is signalled) returns the value tree
exactly unchanged — no value overwritten and no key created anywhere. -/
theorem c7_set_aborts_on_nonmap_intermediate (data : GoMap) (key : Str) (v : GoVal)
    (hlen : 2 ≤ (splitChar '.' key).length)
    (hbad : ∃ j, j < (splitChar '.' key).length - 1 ∧
      isBadPrefix data (splitChar '.' key) j = true) :
    setNestedKey data key v = data :=
  setParts_unchanged (splitChar '.' key) data v hbad

/-- Witness for C7: `data = {a: 1}`, `Set("a.b", "x")` leaves `{a: 1}`. -/
theorem c7_witness :
    setNestedKey [(['a'], GoVal.vint 1)] ['a', '.', 'b'] (GoVal.vstr ['x']) =
      [(['a'], GoVal.vint 1)] :=
  c7_set_aborts_on_nonmap_intermediate [(['a'], GoVal.vint 1)] ['a', '.', 'b']
    (GoVal.vstr ['x']) (by decide) ⟨0, by decide, by decide⟩

/-- **C10.** For every `Config` value tree, every dotted path and every value
`v`: if no existing intermediate segment of the path holds a non-map value,
then after `Set(path, v)` the nested-key resolution of the same path returns
`(v, true)` (missing intermediate segments having been auto-created as empty
maps by the descent). -/
theorem c10_set_then_get (data : GoMap) (key : Str) (v : GoVal)
    (hgood : ∀ j, j < (splitChar '.' key).length - 1 →
      isBadPrefix data (splitChar '.' key) j = false) :
    resolveNestedKey (setNestedKey data key v) key = some v :=
  resolve_setParts (splitChar '.' key) data v (splitChar_ne_nil '.' key) hgood

/-- Witness for C10: `data = {a: 1}`, `Set("b.c", 7)` then `Get("b.c")` is
`(7, true)` with the intermediate map `b` auto-created. -/
theorem c10_witness :
    resolveNestedKey (setNestedKey [(['a'], GoVal.vint 1)] ['b', '.', 'c'] (GoVal.vint 7))
      ['b', '.', 'c'] = some (GoVal.vint 7) :=
  c10_set_then_get [(['a'], GoVal.vint 1)] ['b', '.', 'c'] (GoVal.vint 7) (by decide)

/-! Claims C4 and C5: the list and string literal parsers. -/

theorem inferListItem_eq_specInferItem (item : Str) : inferListItem item = specInferItem item := by
  by_cases hq : hasPrefix ['"'] item = true ∧ hasSuffix ['"'] item = true
  · simp [inferListItem, specInferItem, hq]
  · by_cases ht : item = lit "true"
    · subst ht
      have h1 : goAtoi (lit "true") = none := rfl
      have h2 : goParseFloat (lit "true") = none := rfl
      simp [inferListItem, specInferItem, hq, h1, h2]
    · by_cases hf : item = lit "false"
      · subst hf
        have h1 : goAtoi (lit "false") = none := rfl
        have h2 : goParseFloat (lit "false") = none := rfl
        simp [inferListItem, specInferItem, hq, h1, h2]
      · simp only [inferListItem, specInferItem, if_neg hq, ht, hf, or_self, if_false]

theorem filterMap_infer_eq (l : List Str) :
    (l.filterMap fun item =>
      let item := trimSpace item
      if item = [] then none else some (inferListItem item)) =
    (((l.map trimSpace).filter (· ≠ [])).map specInferItem) := by
  induction l with
  | nil => rfl
  | cons a l ih =>
    by_cases h : trimSpace a = []
    · have hfa : (fun item =>
          let item := trimSpace item
          if item = [] then none else some (inferListItem item)) a = none := by simp [h]
      have hfb : (decide (trimSpace a ≠ [])) = false := by simpa using h
      simp only [List.filterMap_cons, List.map_cons, List.filter_cons, hfa, hfb,
        Bool.false_eq_true, if_false]
      exact ih
    · have hfa : (fun item =>
          let item := trimSpace item
          if item = [] then none else some (inferListItem item)) a =
            some (inferListItem (trimSpace a)) := by simp [h]
      have hfb : (decide (trimSpace a ≠ [])) = true := by simpa using h
      simp only [List.filterMap_cons, List.map_cons, List.filter_cons, hfa, hfb, if_true]
      rw [ih, inferListItem_eq_specInferItem]

/-- **C4 (corrected).** The list parser coincides exactly with the amended
description: bracket delimiters checked (Type error otherwise), the interior
obtained by stripping all edge bracket characters and trimming, split on
**every** comma (the splitter is neither quote- nor bracket-aware), empty
elements dropped, and each element independently type-inferred (quoted →
String with all edge quotes trimmed, `true`/`false` → Bool, else Int, else
Float, else the raw text); an empty interior yields an empty List. -/
theorem c4_parse_list_amended (value : Str) (lineNum col : Nat) (line : Str) :
    parseListGo value lineNum col line = parseListSpec value lineNum col line := by
  unfold parseListGo parseListSpec
  by_cases hb : hasPrefix ['['] value = true ∧ hasSuffix [']'] value = true
  · simp only [hb, and_self, if_true, if_pos]
    by_cases hc : trimSpace (goTrim value ['[', ']']) = []
    · simp [hc]
    · simp [hc, filterMap_infer_eq]
  · simp [hb]

/-- Counterexample for C4 as frozen: the claim predicts that the comma inside
the quotes of `["a,b"]` does not split (one String element `a,b`, as the
quote-aware top-level split `smartSplit` would produce), and that the
bracketed elements of `[[1],[2]]` stay whole; the code splits on every comma
and returns the fragments `"a` / `b"` and `1]` / `[2` as raw strings. -/
theorem c4_counterexample :
    parseListGo (lit "[\"a,b\"]") 1 1 [] =
      .ok [GoVal.vstr (lit "\"a"), GoVal.vstr (lit "b\"")] ∧
    smartSplit (lit "\"a,b\"") ',' = [lit "\"a,b\""] ∧
    parseListGo (lit "[[1],[2]]") 1 1 [] =
      .ok [GoVal.vstr (lit "1]"), GoVal.vstr (lit "[2")] ∧
    smartSplit (lit "[1],[2]") ',' = [lit "[1]", lit "[2]"] :=
  ⟨rfl, rfl, rfl, rfl⟩

/-- **C5 (corrected).** The string parser returns a Type error **iff** the
value text does not both start and end with a double quote; on success the
result is `strings.Trim(value, "\"")` — **all** leading and trailing double
quotes stripped, not just the two delimiting ones. -/
theorem c5_parse_string_amended (s : Str) (lineNum col : Nat) (line : Str) :
    ((parseStringGo s lineNum col line).isOk = false ↔
      ¬(hasPrefix ['"'] s = true ∧ hasSuffix ['"'] s = true)) ∧
    (∀ r, parseStringGo s lineNum col line = .ok r → r = goTrim s ['"']) := by
  by_cases h : hasPrefix ['"'] s = true ∧ hasSuffix ['"'] s = true
  · constructor
    · simp [parseStringGo, h, Except.isOk, Except.toBool]
    · intro r hr
      simpa [parseStringGo, h] using hr.symm
  · constructor
    · simp [parseStringGo, h, Except.isOk, Except.toBool]
    · intro r hr
      simp [parseStringGo, h] at hr

/-- Witness for C5 (amended): `"hi"` parses to `hi`, and `invalid` (no
quotes) is rejected. -/
theorem c5_witness :
    (lit "hi" : Str) = goTrim (lit "\"hi\"") ['"'] ∧
    (parseStringGo (lit "invalid") 1 1 []).isOk = false :=
  ⟨(c5_parse_string_amended (lit "\"hi\"") 1 1 []).2 (lit "hi") rfl,
   (c5_parse_string_amended (lit "invalid") 1 1 []).1.mpr (by decide)⟩

/-- Counterexample for C5 as frozen: on `""a""` the claim predicts `"a"`
(exactly the two delimiting quotes removed); the code strips every edge quote
and returns `a`. -/
theorem c5_counterexample :
    parseStringGo (lit "\"\"a\"\"") 1 1 [] = .ok (lit "a") ∧
    stripDelimQuotes (lit "\"\"a\"\"") = lit "\"a\"" ∧
    (lit "a" : Str) ≠ lit "\"a\"" :=
  ⟨rfl, rfl, by decide⟩

/-! Claim C9: the typed accessors of `config.go`. -/

/-- Counterexample for C9 as frozen: the claim says every accessor returns
its zero value on a wrong-kind value, but `GetInt` on a float64 `2.5`
truncates to `2` instead of returning `0` (and `GetFloat` symmetrically
converts ints). -/
theorem c9_counterexample :
    getInt ⟨[(['x'], GoVal.vfloat ⟨25, -1⟩)], .auto⟩ ['x'] = 2 ∧ (2 : Int) ≠ 0 ∧
    getFloat ⟨[(['y'], GoVal.vint 3)], .auto⟩ ['y'] = ⟨3, 0⟩ ∧
    (⟨3, 0⟩ : GoFloat) ≠ ⟨0, 0⟩ :=
  ⟨rfl, by decide, rfl, by decide⟩

/-- **C9 (corrected).** For every `Config` and dotted path: when the path is
absent every typed accessor returns its zero value and every `Must*` variant
fails loudly; when the path resolves, each accessor returns the stored value
for its own kind and the zero value for any other kind — **except** that
`GetInt` converts a stored float64 by truncation (`int(v)`) and `GetFloat`
converts a stored int (`float64(v)`). -/
theorem c9_accessors_amended (c : Config) (key : Str) :
    (resolveNestedKey c.data key = none →
      getString c key = [] ∧ getInt c key = 0 ∧ getFloat c key = ⟨0, 0⟩ ∧
      getBool c key = false ∧ getList c key = [] ∧ getMap c key = [] ∧
      mustString c key = none ∧ mustInt c key = none ∧ mustFloat c key = none ∧
      mustBool c key = none) ∧
    (∀ s, resolveNestedKey c.data key = some (.vstr s) →
      getString c key = s ∧ getInt c key = 0 ∧ getFloat c key = ⟨0, 0⟩ ∧
      getBool c key = false ∧ getList c key = [] ∧ getMap c key = []) ∧
    (∀ n, resolveNestedKey c.data key = some (.vint n) →
      getInt c key = n ∧ getFloat c key = intToGoFloat n ∧ getString c key = [] ∧
      getBool c key = false ∧ getList c key = [] ∧ getMap c key = []) ∧
    (∀ q, resolveNestedKey c.data key = some (.vfloat q) →
      getFloat c key = q ∧ getInt c key = q.toIntTrunc ∧ getString c key = [] ∧
      getBool c key = false ∧ getList c key = [] ∧ getMap c key = []) ∧
    (∀ b, resolveNestedKey c.data key = some (.vbool b) →
      getBool c key = b ∧ getString c key = [] ∧ getInt c key = 0 ∧
      getFloat c key = ⟨0, 0⟩ ∧ getList c key = [] ∧ getMap c key = []) ∧
    (∀ xs, resolveNestedKey c.data key = some (.vlist xs) →
      getList c key = xs ∧ getString c key = [] ∧ getInt c key = 0 ∧
      getFloat c key = ⟨0, 0⟩ ∧ getBool c key = false ∧ getMap c key = []) ∧
    (∀ m, resolveNestedKey c.data key = some (.vmap m) →
      getMap c key = m ∧ getString c key = [] ∧ getInt c key = 0 ∧
      getFloat c key = ⟨0, 0⟩ ∧ getBool c key = false ∧ getList c key = []) := by
  refine ⟨fun h => ?_, fun s h => ?_, fun n h => ?_, fun q h => ?_, fun b h => ?_,
    fun xs h => ?_, fun m h => ?_⟩ <;>
    simp [getString, getInt, getFloat, getBool, getList, getMap,
      mustString, mustInt, mustFloat, mustBool, h]

/-- Witness for C9 (amended): a float-valued key truncates under `GetInt`,
and an absent key yields the zero values with `MustInt` failing. -/
theorem c9_witness :
    (getFloat ⟨[(['z'], GoVal.vfloat ⟨35, -1⟩)], .auto⟩ ['z'] = ⟨35, -1⟩ ∧
      getInt ⟨[(['z'], GoVal.vfloat ⟨35, -1⟩)], .auto⟩ ['z'] =
        GoFloat.toIntTrunc ⟨35, -1⟩) ∧
    (getInt ⟨[], .auto⟩ ['w'] = 0 ∧ mustInt ⟨[], .auto⟩ ['w'] = none) :=
  ⟨⟨((c9_accessors_amended ⟨[(['z'], GoVal.vfloat ⟨35, -1⟩)], .auto⟩ ['z']).2.2.2.1
      ⟨35, -1⟩ rfl).1,
    ((c9_accessors_amended ⟨[(['z'], GoVal.vfloat ⟨35, -1⟩)], .auto⟩ ['z']).2.2.2.1
      ⟨35, -1⟩ rfl).2.1⟩,
   ⟨((c9_accessors_amended ⟨[], .auto⟩ ['w']).1 rfl).2.1,
    ((c9_accessors_amended ⟨[], .auto⟩ ['w']).1 rfl).2.2.2.2.2.2.2.1⟩⟩

/-! Claim C8: the strict-types default policy. -/

/-- **C8.** `ApplyDefaults` with the policy `{StrictTypes: true, Override:
true}` (the other two flags at their zero value `false`), against a config
whose existing key holds a value of a different dynamic kind than the
supplied default for that key, returns a type-mismatch error that aborts the
whole operation before `SaveToFile`, so the stored tree — in particular the
existing key's value — is unchanged after the call. -/
theorem c8_strict_override_mismatch (data : GoMap) (key : Str) (v dv : GoVal)
    (hres : readmeGet data key = some v)
    (hmismatch : typesMatch v dv = false) :
    (applyDefaultsFile data [(key, dv)] ⟨true, true, false, false⟩).2.isSome = true ∧
    (applyDefaultsFile data [(key, dv)] ⟨true, true, false, false⟩).1 = data ∧
    readmeGet (applyDefaultsFile data [(key, dv)] ⟨true, true, false, false⟩).1 key =
      some v := by
  have happ : applyDefault data key dv ⟨true, true, false, false⟩ =
      .error (lit "type mismatch for key '" ++ key ++ lit "': expected " ++
        kindGoName v.kind ++ lit ", got " ++ kindGoName dv.kind) := by
    simp [applyDefault, hres, hmismatch]
  have : applyDefaultsGo data [(key, dv)] ⟨true, true, false, false⟩ =
      .error (lit "type mismatch for key '" ++ key ++ lit "': expected " ++
        kindGoName v.kind ++ lit ", got " ++ kindGoName dv.kind) := by
    simp [applyDefaultsGo, List.foldlM, happ, Except.bind]
  refine ⟨?_, ?_, ?_⟩ <;> simp [applyDefaultsFile, this, hres]

/-- Witness for C8: an existing Int key `port = 8080` with a String default
`"9000"` (the `policy_test.go` strict-types case): the call errors and the
stored tree still maps `port` to `8080`. -/
theorem c8_witness :
    (applyDefaultsFile [(['p','o','r','t'], GoVal.vint 8080)]
      [(['p','o','r','t'], GoVal.vstr ['9','0','0','0'])]
      ⟨true, true, false, false⟩).2.isSome = true ∧
    (applyDefaultsFile [(['p','o','r','t'], GoVal.vint 8080)]
      [(['p','o','r','t'], GoVal.vstr ['9','0','0','0'])]
      ⟨true, true, false, false⟩).1 = [(['p','o','r','t'], GoVal.vint 8080)] ∧
    readmeGet (applyDefaultsFile [(['p','o','r','t'], GoVal.vint 8080)]
      [(['p','o','r','t'], GoVal.vstr ['9','0','0','0'])]
      ⟨true, true, false, false⟩).1 ['p','o','r','t'] = some (GoVal.vint 8080) :=
  c8_strict_override_mismatch [(['p','o','r','t'], GoVal.vint 8080)] ['p','o','r','t']
    (GoVal.vint 8080) (GoVal.vstr ['9','0','0','0']) rfl rfl

/-! Claim C2: the Dump/Parse round trip. -/

/-- **C2 (code bug).** The round trip fails on any tree holding a
non-integral float64.  `float x = 2.5;` parses to the tree `{x: 2.5}`
(well-formed literals only); `Dump` renders the float64 with the keyword
`number` as `number x = 2.5;`, but `parseValue` maps `number` to the
**integer** parser, so `Parse(Dump(cfg))` returns a Type error (`Invalid
integer value: 2.5`) instead of an equivalent tree — contradicting the
serializer contract that `Dump` produces text a compliant parser accepts. -/
theorem c2_roundtrip_float_bug :
    goParse (lit "float x = 2.5;") = .ok ⟨[(['x'], GoVal.vfloat ⟨25, -1⟩)], .auto⟩ ∧
    goDump ⟨[(['x'], GoVal.vfloat ⟨25, -1⟩)], .auto⟩ = lit "number x = 2.5;\n" ∧
    goParse (lit "number x = 2.5;\n") =
      .error ⟨.typeErr, 1, 1, lit "Invalid integer value: 2.5", lit "number x = 2.5;"⟩ := by
  refine ⟨rfl, ?_, rfl⟩
  simp [goDump, dumpDataW, dumpEntriesW, dumpValueW, sortPairs, insertSorted, dumpScalar,
    formatGoFloat, goFormatInt, lit]
  decide

/-! String-shape lemmas used to trace a single declaration through `Parse`. -/

theorem splitChar_not_mem {sep : Char} {l : Str} (h : sep ∉ l) : splitChar sep l = [l] := by
  induction l with
  | nil => rfl
  | cons c rest ih =>
    have hc : c ≠ sep := by rintro rfl; exact h (by simp)
    have hr : sep ∉ rest := fun hm => h (by simp [hm])
    simp [splitChar, ih hr, hc]

theorem trimLead_cons {c : Char} {l : Str} (h : isGoSpace c = false) :
    trimLead (c :: l) = c :: l := by
  simp [trimLead, List.dropWhile_cons, h]

theorem trimLead_cons_space (l : Str) : trimLead (' ' :: l) = trimLead l := by
  simp [trimLead, List.dropWhile_cons, isGoSpace]

theorem trimTrail_append {l : Str} {d : Char} (h : isGoSpace d = false) :
    trimTrail (l ++ [d]) = l ++ [d] := by
  simp [trimTrail, List.dropWhile_cons, h]

theorem trimTrail_append_space {l : Str} {d : Char} (h : isGoSpace d = true) :
    trimTrail (l ++ [d]) = trimTrail l := by
  simp [trimTrail, List.dropWhile_cons, h]

theorem trimSpace_sandwich {c d : Char} {m : Str} (hc : isGoSpace c = false)
    (hd : isGoSpace d = false) : trimSpace (c :: (m ++ [d])) = c :: (m ++ [d]) := by
  have h1 : c :: (m ++ [d]) = (c :: m) ++ [d] := by simp
  rw [trimSpace, trimLead_cons hc, h1, trimTrail_append hd]

theorem hasSuffix_concat (x : Char) (l : Str) : hasSuffix [x] (l ++ [x]) = true := by
  simp [hasSuffix, List.isSuffixOf, List.isPrefixOf]

theorem trimSuffix_concat (x : Char) (l : Str) : trimSuffix [x] (l ++ [x]) = l := by
  have hlen : (l ++ [x]).length - 1 = l.length := by simp
  simp only [trimSuffix, hasSuffix_concat, if_true, List.length_cons, List.length_append,
    List.length_singleton, hlen]
  exact List.take_left l [x]

theorem hasPrefix_cons_ne {a c : Char} {p l : Str} (h : c ≠ a) :
    hasPrefix (a :: p) (c :: l) = false := by
  simp [hasPrefix, List.isPrefixOf, Ne.symm h]

theorem splitFirst_append {sep : Char} {A B : Str} (h : sep ∉ A) :
    splitFirst sep (A ++ sep :: B) = some (A, B) := by
  induction A with
  | nil => simp [splitFirst]
  | cons a A ih =>
    have ha : a ≠ sep := by rintro rfl; exact h (by simp)
    have h' : sep ∉ A := fun hm => h (by simp [hm])
    simp [splitFirst, ha, ih h']

theorem fields_single {name : Str} (hne : name ≠ [])
    (hsp : ∀ c ∈ name, isGoSpace c = false) : goFields name = [name] := by
  induction name with
  | nil => exact absurd rfl hne
  | cons d rest ih =>
    have hd : isGoSpace d = false := hsp d (by simp)
    cases rest with
    | nil => simp [goFields, hd]
    | cons e r =>
      have he : isGoSpace e = false := hsp e (by simp)
      have := ih (by simp) (fun c hc => hsp c (by simp [hc]))
      simp [goFields, hd, he] at this ⊢
      simp [this]

theorem goFields_cons_cons {c d : Char} {l : Str} (hc : isGoSpace c = false)
    (hd : isGoSpace d = false) :
    goFields (c :: d :: l) = (c :: (goFields (d :: l)).headD []) :: (goFields (d :: l)).tail := by
  conv_lhs => unfold goFields
  simp [hc, hd]

theorem fields_pair {t name : Str} (htne : t ≠ []) (hnne : name ≠ [])
    (htsp : ∀ c ∈ t, isGoSpace c = false) (hnsp : ∀ c ∈ name, isGoSpace c = false) :
    goFields (t ++ ' ' :: name) = [t, name] := by
  induction t with
  | nil => exact absurd rfl htne
  | cons c t' ih =>
    have hc : isGoSpace c = false := htsp c (by simp)
    cases t' with
    | nil =>
      have hsp' : isGoSpace ' ' = true := by decide
      have hfs2 : goFields name = [name] := fields_single hnne hnsp
      simp [goFields, hc, hsp', hfs2]
    | cons c2 t'' =>
      have hc2 : isGoSpace c2 = false := htsp c2 (by simp)
      have hrest := ih (by simp) (fun d hd => htsp d (by simp [hd]))
      simp only [List.cons_append] at hrest ⊢
      rw [goFields_cons_cons hc hc2, hrest]
      simp

/-! Character facts for identifiers and type keywords. -/

theorem validIdent_chars {name : Str} (h : isValidIdentifier name = true) :
    name ≠ [] ∧ ∀ c ∈ name, (isIdentStart c || isIdentCont c) = true := by
  cases name with
  | nil => simp [isValidIdentifier] at h
  | cons c rest =>
    simp only [isValidIdentifier, Bool.and_eq_true, List.all_eq_true] at h
    refine ⟨by simp, ?_⟩
    intro d hd
    rcases List.mem_cons.mp hd with rfl | hd
    · simp [h.1]
    · simp [h.2 d hd]

theorem identChar_facts {c : Char} (h : (isIdentStart c || isIdentCont c) = true) :
    isGoSpace c = false ∧ c ≠ '\n' ∧ c ≠ '=' := by
  refine ⟨?_, ?_, ?_⟩
  · by_contra hsp
    rw [Bool.not_eq_false] at hsp
    simp only [isGoSpace, Bool.or_eq_true, decide_eq_true_eq] at hsp
    rcases hsp with ((((rfl | rfl) | rfl) | rfl) | rfl) | rfl <;> revert h <;> decide
  · rintro rfl; revert h; decide
  · rintro rfl; revert h; decide

theorem typeKeyword_facts {t : Str} (h : isTypeKeyword t = true) :
    t ≠ [] ∧
    (∀ c ∈ t, isGoSpace c = false ∧ c ≠ '\n' ∧ c ≠ '=') ∧
    (∃ c t', t = c :: t' ∧ c ≠ '/' ∧ c ≠ '@' ∧ isGoSpace c = false) := by
  simp only [isTypeKeyword, decide_eq_true_eq] at h
  rcases h with rfl | rfl | rfl | rfl | rfl | rfl | rfl | rfl <;>
    exact ⟨by decide, by decide, _, _, rfl, by decide, by decide, by decide⟩

/-- Tracing one well-shaped declaration `<type> <name> = <literal>;` through
the statement assembler and `parseLine`: `Parse` reduces to the literal
parser's verdict, an `ok` value being assigned at the dotted name in a fresh
tree. -/
theorem goParse_single_decl (t name litv : Str)
    (ht : isTypeKeyword t = true)
    (hname : isValidIdentifier name = true)
    (hnl : '\n' ∉ litv)
    (htrim : trimSpace litv = litv) :
    goParse (mkDecl t name litv) =
      match parseValueGo t litv 1 1 (mkDecl t name litv) with
      | .ok v => .ok ⟨setNestedKey [] name v, .auto⟩
      | .error e => .error e := by
  obtain ⟨htne, hchars, c, t', htc, hcslash, hcat, hcsp⟩ := typeKeyword_facts ht
  obtain ⟨hnne, hnchars⟩ := validIdent_chars hname
  have hnsp : ∀ d ∈ name, isGoSpace d = false :=
    fun d hd => (identChar_facts (hnchars d hd)).1
  have htsp : ∀ d ∈ t, isGoSpace d = false := fun d hd => (hchars d hd).1
  -- no newline anywhere in the statement
  have hnlD : '\n' ∉ mkDecl t name litv := by
    intro hm
    rw [mkDecl] at hm
    rcases List.mem_append.mp hm with h | h
    · rcases List.mem_append.mp h with h | h
      · exact (hchars _ h).2.1 rfl
      · rcases List.mem_cons.mp h with h | h
        · exact absurd h (by decide)
        · exact (identChar_facts (hnchars _ h)).2.1 rfl
    · rcases List.mem_cons.mp h with h | h
      · exact absurd h (by decide)
      · rcases List.mem_cons.mp h with h | h
        · exact absurd h (by decide)
        · rcases List.mem_cons.mp h with h | h
          · exact absurd h (by decide)
          · rcases List.mem_append.mp h with h | h
            · exact hnl h
            · rcases List.mem_singleton.mp h with h'
              exact absurd h' (by decide)
  -- the statement in head-middle-semicolon form
  have hD2 : mkDecl t name litv =
      c :: ((t' ++ ' ' :: name ++ ' ' :: '=' :: ' ' :: litv) ++ [';']) := by
    rw [htc, mkDecl]
    simp [List.append_assoc]
  have htrimD : trimSpace (mkDecl t name litv) = mkDecl t name litv := by
    rw [hD2]; exact trimSpace_sandwich hcsp (by decide)
  have hsuffD : hasSuffix [';'] (mkDecl t name litv) = true := by
    rw [hD2, show c :: ((t' ++ ' ' :: name ++ ' ' :: '=' :: ' ' :: litv) ++ [';']) =
      (c :: (t' ++ ' ' :: name ++ ' ' :: '=' :: ' ' :: litv)) ++ [';'] from rfl]
    exact hasSuffix_concat _ _
  have hDne : mkDecl t name litv ≠ [] := by rw [hD2]; simp
  have hpre1 : hasPrefix ['/', '/'] (mkDecl t name litv) = false := by
    rw [hD2]; exact hasPrefix_cons_ne hcslash
  have hpre2 : hasPrefix ['@'] (mkDecl t name litv) = false := by
    rw [hD2]; exact hasPrefix_cons_ne hcat
  -- parseLine's view: semicolon stripped
  have hstrip : trimSuffix [';'] (mkDecl t name litv) =
      t ++ ' ' :: name ++ ' ' :: '=' :: ' ' :: litv := by
    rw [hD2, show c :: ((t' ++ ' ' :: name ++ ' ' :: '=' :: ' ' :: litv) ++ [';']) =
      (c :: (t' ++ ' ' :: name ++ ' ' :: '=' :: ' ' :: litv)) ++ [';'] from rfl,
      trimSuffix_concat, htc]
    rfl
  -- the first '=' splits declaration from value
  have heqA : '=' ∉ t ++ ' ' :: name ++ [' '] := by
    intro hm
    rcases List.mem_append.mp hm with h | h
    · rcases List.mem_append.mp h with h | h
      · exact (hchars _ h).2.2 rfl
      · rcases List.mem_cons.mp h with h | h
        · exact absurd h (by decide)
        · exact (identChar_facts (hnchars _ h)).2.2 rfl
    · rcases List.mem_singleton.mp h with h'
      exact absurd h' (by decide)
  have hx : t ++ ' ' :: name ++ ' ' :: '=' :: ' ' :: litv =
      (t ++ ' ' :: name ++ [' ']) ++ '=' :: (' ' :: litv) := by simp
  have hsplit : splitFirst '=' (t ++ ' ' :: name ++ ' ' :: '=' :: ' ' :: litv) =
      some (t ++ ' ' :: name ++ [' '], ' ' :: litv) := by
    rw [hx]
    exact splitFirst_append heqA
  -- the declaration side trims to "type name"
  obtain ⟨ninit, nlast, hnsplit⟩ : ∃ L b, name = L ++ [b] := by
    rcases List.eq_nil_or_concat name with h | ⟨L, b, h⟩
    · exact absurd h hnne
    · exact ⟨L, b, by simpa [List.concat_eq_append] using h⟩
  have hnlastsp : isGoSpace nlast = false := hnsp nlast (by rw [hnsplit]; simp)
  have hdecl : trimSpace (t ++ ' ' :: name ++ [' ']) = t ++ ' ' :: name := by
    rw [htc]
    rw [show (c :: t') ++ ' ' :: name ++ [' '] = c :: (t' ++ ' ' :: name ++ [' ']) from rfl]
    rw [trimSpace, trimLead_cons hcsp]
    rw [show c :: (t' ++ ' ' :: name ++ [' ']) =
      (c :: (t' ++ ' ' :: name)) ++ [' '] from by simp]
    rw [trimTrail_append_space (by decide)]
    rw [show c :: (t' ++ ' ' :: name) =
      (c :: t' ++ ' ' :: ninit) ++ [nlast] from by simp [hnsplit]]
    rw [trimTrail_append hnlastsp]
    simp [hnsplit]
  -- the value side trims to the literal
  have hval : trimSpace (' ' :: litv) = litv := by
    rw [trimSpace, trimLead_cons_space]
    exact htrim
  have hfields : goFields (t ++ ' ' :: name) = [t, name] :=
    fields_pair htne hnne htsp hnsp
  -- assemble
  unfold goParse
  rw [splitChar_not_mem hnlD]
  unfold parseLinesGo
  rw [htrimD]
  rw [if_neg (by simp [hDne, hpre1])]
  rw [if_neg (by simp [hpre2])]
  rw [if_neg (by simp [hsuffD])]
  rw [if_neg (by simp)]
  rw [if_neg (by simp [hsuffD])]
  unfold parseLineGo
  rw [htrimD]
  simp only [hstrip, hsplit, hdecl, hval, hfields, hname, if_true]
  cases hpv : parseValueGo t litv 1 1 (mkDecl t name litv) with
  | ok v => simp [parseLinesGo, Config.set, Config.new]
  | error e => simp

/-! Error-position lemmas: every literal parser reports the line and column
it was handed. -/

theorem foldlM_except_err {α β : Type} {f : β → α → Except DMLError β} {P : DMLError → Prop}
    (hf : ∀ b a e, f b a = .error e → P e) :
    ∀ (l : List α) (acc : β) {e}, l.foldlM f acc = .error e → P e := by
  intro l
  induction l with
  | nil =>
    intro acc e h
    simp [List.foldlM, pure, Except.pure] at h
  | cons a as ih =>
    intro acc e h
    simp only [List.foldlM] at h
    cases hfa : f acc a with
    | ok b =>
      rw [hfa] at h
      simp only [Except.bind, bind] at h
      exact ih b h
    | error e' =>
      rw [hfa] at h
      simp only [Except.bind, bind] at h
      injection h with he
      subst he
      exact hf acc a _ hfa

theorem parseMapCore_err {pmv : Str → GoVal} {value : Str} {lineNum col : Nat} {line : Str}
    {e : DMLError} (h : parseMapCore pmv value lineNum col line = .error e) :
    e.line = lineNum ∧ e.column = col := by
  unfold parseMapCore at h
  by_cases hb : hasPrefix ['{'] value = true ∧ hasSuffix ['}'] value = true
  · rw [if_pos hb] at h
    by_cases hc : trimSpace (goTrim value ['{', '}']) = []
    · simp [hc] at h
    · rw [if_neg hc] at h
      refine @foldlM_except_err _ _ _ (fun er => er.line = lineNum ∧ er.column = col)
        (fun acc pair e' hfa => ?_) _ _ _ h
      by_cases hp : trimSpace pair = []
      · simp [hp] at hfa
      · simp only [if_neg hp] at hfa
        cases hsp : splitFirst ':' (trimSpace pair) with
        | none =>
          rw [hsp] at hfa
          cases hfa
          exact ⟨rfl, rfl⟩
        | some kv =>
          obtain ⟨k, v⟩ := kv
          rw [hsp] at hfa
          simp at hfa
  · rw [if_neg hb] at h
    cases h
    exact ⟨rfl, rfl⟩

theorem parseValueGo_err {t v : Str} {lineNum col : Nat} {line : Str} {e : DMLError}
    (h : parseValueGo t v lineNum col line = .error e) :
    e.line = lineNum ∧ e.column = col := by
  unfold parseValueGo at h
  by_cases h1 : t = lit "string"
  · rw [if_pos h1] at h
    unfold parseStringGo at h
    by_cases hq : hasPrefix ['"'] v = true ∧ hasSuffix ['"'] v = true
    · simp [hq, Except.map] at h
    · rw [if_neg hq] at h
      cases h
      exact ⟨rfl, rfl⟩
  · rw [if_neg h1] at h
    by_cases h2 : t = lit "int" ∨ t = lit "number"
    · rw [if_pos h2] at h
      unfold parseIntGo at h
      cases ha : goAtoi v with
      | some n => rw [ha] at h; simp [Except.map] at h
      | none => rw [ha] at h; cases h; exact ⟨rfl, rfl⟩
    · rw [if_neg h2] at h
      by_cases h3 : t = lit "float"
      · rw [if_pos h3] at h
        unfold parseFloatGo at h
        cases ha : goParseFloat v with
        | some q => rw [ha] at h; simp [Except.map] at h
        | none => rw [ha] at h; cases h; exact ⟨rfl, rfl⟩
      · rw [if_neg h3] at h
        by_cases h4 : t = lit "bool" ∨ t = lit "boolean"
        · rw [if_pos h4] at h
          unfold parseBoolGo at h
          by_cases hb1 : v = lit "true"
          · simp [hb1, Except.map] at h
          · rw [if_neg hb1] at h
            by_cases hb2 : v = lit "false"
            · simp [hb2, Except.map] at h
            · rw [if_neg hb2] at h
              cases h
              exact ⟨rfl, rfl⟩
        · rw [if_neg h4] at h
          by_cases h5 : t = lit "list"
          · rw [if_pos h5] at h
            unfold parseListGo at h
            by_cases hb : hasPrefix ['['] v = true ∧ hasSuffix [']'] v = true
            · rw [if_pos hb] at h
              by_cases hc : trimSpace (goTrim v ['[', ']']) = []
              · simp [hc, Except.map] at h
              · simp [hc, Except.map] at h
            · rw [if_neg hb] at h
              cases h
              exact ⟨rfl, rfl⟩
          · rw [if_neg h5] at h
            by_cases h6 : t = lit "map"
            · rw [if_pos h6] at h
              unfold parseMapGo at h
              cases hm : parseMapCore (parseMapValueF (v.length + 2)) v lineNum col line with
              | ok m => rw [hm] at h; simp [Except.map] at h
              | error e' =>
                rw [hm] at h
                simp only [Except.map] at h
                cases h
                exact parseMapCore_err hm
            · rw [if_neg h6] at h
              cases h
              exact ⟨rfl, rfl⟩

theorem isBadPrefix_nil (parts : List Str) (j : Nat) : isBadPrefix [] parts j = false := by
  cases parts <;> rfl

theorem parseValueGo_ok_kind {t v : Str} {ln col : Nat} {line : Str} {w : GoVal}
    (ht : isTypeKeyword t = true)
    (h : parseValueGo t v ln col line = .ok w) : kindMatchesKeyword t w = true := by
  simp only [isTypeKeyword, decide_eq_true_eq] at ht
  rcases ht with h1 | h1 | h1 | h1 | h1 | h1 | h1 | h1 <;> subst h1
  · rw [show parseValueGo (lit "string") v ln col line =
      (parseStringGo v ln col line).map .vstr from rfl] at h
    cases hr : parseStringGo v ln col line with
    | ok r => rw [hr] at h; simp only [Except.map] at h; cases h; rfl
    | error e => rw [hr] at h; simp [Except.map] at h
  · rw [show parseValueGo (lit "int") v ln col line =
      (parseIntGo v ln col line).map .vint from rfl] at h
    cases hr : parseIntGo v ln col line with
    | ok r => rw [hr] at h; simp only [Except.map] at h; cases h; rfl
    | error e => rw [hr] at h; simp [Except.map] at h
  · rw [show parseValueGo (lit "number") v ln col line =
      (parseIntGo v ln col line).map .vint from rfl] at h
    cases hr : parseIntGo v ln col line with
    | ok r => rw [hr] at h; simp only [Except.map] at h; cases h; rfl
    | error e => rw [hr] at h; simp [Except.map] at h
  · rw [show parseValueGo (lit "float") v ln col line =
      (parseFloatGo v ln col line).map .vfloat from rfl] at h
    cases hr : parseFloatGo v ln col line with
    | ok r => rw [hr] at h; simp only [Except.map] at h; cases h; rfl
    | error e => rw [hr] at h; simp [Except.map] at h
  · rw [show parseValueGo (lit "bool") v ln col line =
      (parseBoolGo v ln col line).map .vbool from rfl] at h
    cases hr : parseBoolGo v ln col line with
    | ok r => rw [hr] at h; simp only [Except.map] at h; cases h; rfl
    | error e => rw [hr] at h; simp [Except.map] at h
  · rw [show parseValueGo (lit "boolean") v ln col line =
      (parseBoolGo v ln col line).map .vbool from rfl] at h
    cases hr : parseBoolGo v ln col line with
    | ok r => rw [hr] at h; simp only [Except.map] at h; cases h; rfl
    | error e => rw [hr] at h; simp [Except.map] at h
  · rw [show parseValueGo (lit "list") v ln col line =
      (parseListGo v ln col line).map .vlist from rfl] at h
    cases hr : parseListGo v ln col line with
    | ok r => rw [hr] at h; simp only [Except.map] at h; cases h; rfl
    | error e => rw [hr] at h; simp [Except.map] at h
  · rw [show parseValueGo (lit "map") v ln col line =
      (parseMapGo v ln col line).map .vmap from rfl] at h
    cases hr : parseMapGo v ln col line with
    | ok r => rw [hr] at h; simp only [Except.map] at h; cases h; rfl
    | error e => rw [hr] at h; simp [Except.map] at h

/-- **C1 (corrected).** For every single declaration `<type> <name> =
<literal>;` that the implementation accepts (recognised type keyword, valid
identifier, single-line trimmed literal text, and the type's literal parser
accepting the text with some value `v`), `Parse` succeeds, a subsequent
`Get(name)` (nested-key resolution of the declared name) returns exactly that
parser value `v`, and `v`'s kind matches the declared type keyword.  The
content equals the literal's semantic value for int/float/bool literals and
for quote-delimited strings without extra edge quotes, but **not** for
strings in general: all edge quotes are stripped, not only the two
delimiting ones (C5) — see `c1_counterexample`. -/
theorem c1_single_declaration (t name litv : Str) (v : GoVal)
    (ht : isTypeKeyword t = true)
    (hname : isValidIdentifier name = true)
    (hnl : '\n' ∉ litv)
    (htrim : trimSpace litv = litv)
    (hok : parseValueGo t litv 1 1 (mkDecl t name litv) = .ok v) :
    goParse (mkDecl t name litv) = .ok ⟨setNestedKey [] name v, .auto⟩ ∧
    resolveNestedKey (setNestedKey [] name v) name = some v ∧
    kindMatchesKeyword t v = true := by
  refine ⟨?_, ?_, parseValueGo_ok_kind ht hok⟩
  · rw [goParse_single_decl t name litv ht hname hnl htrim, hok]
  · exact resolve_setParts (splitChar '.' name) [] v (splitChar_ne_nil '.' name)
      (fun j _ => isBadPrefix_nil _ _)

/-- Witness for C1 (amended): `int age = 25;` parses, and `Get("age")` is
`Int 25` whose kind matches `int`. -/
theorem c1_witness :
    goParse (mkDecl (lit "int") (lit "age") (lit "25")) =
      .ok ⟨setNestedKey [] (lit "age") (GoVal.vint 25), .auto⟩ ∧
    resolveNestedKey (setNestedKey [] (lit "age") (GoVal.vint 25)) (lit "age") =
      some (GoVal.vint 25) ∧
    kindMatchesKeyword (lit "int") (GoVal.vint 25) = true :=
  c1_single_declaration (lit "int") (lit "age") (lit "25") (GoVal.vint 25)
    (by decide) (by decide) (by decide) (by decide) rfl

/-- Counterexample for C1 as frozen: `string x = ""b"";` is a single
declaration whose literal `""b""` is a quote-delimited string literal with
semantic value `"b"` (the two delimiting quotes removed), but `Parse` then
`Get("x")` yields the bare `b` — the content does not equal the literal's
semantic value. -/
theorem c1_counterexample :
    goParse (lit "string x = \"\"b\"\";") =
      .ok ⟨[(['x'], GoVal.vstr ['b'])], .auto⟩ ∧
    resolveNestedKey [(['x'], GoVal.vstr ['b'])] ['x'] = some (GoVal.vstr ['b']) ∧
    stripDelimQuotes (lit "\"\"b\"\"") = lit "\"b\"" ∧
    (['b'] : Str) ≠ lit "\"b\"" :=
  ⟨rfl, rfl, rfl, by decide⟩

/-- **C6 (corrected).** Every literal-parser failure in a single declaration
carries the exact 1-based line number and the **constant column 1**:
`parseLine` passes the literal parsers the column argument `1` and never
computes the offset of the value text within the source line. -/
theorem c6_literal_error_position (t name litv : Str) (err : DMLError)
    (ht : isTypeKeyword t = true)
    (hname : isValidIdentifier name = true)
    (hnl : '\n' ∉ litv)
    (htrim : trimSpace litv = litv)
    (herr : parseValueGo t litv 1 1 (mkDecl t name litv) = .error err) :
    goParse (mkDecl t name litv) = .error err ∧ err.line = 1 ∧ err.column = 1 := by
  obtain ⟨hl, hc⟩ := parseValueGo_err herr
  refine ⟨?_, hl, hc⟩
  rw [goParse_single_decl t name litv ht hname hnl htrim, herr]

/-- Witness for C6 (amended): `int age = abc;` fails with a Type error at
line 1, column 1. -/
theorem c6_witness :
    goParse (mkDecl (lit "int") (lit "age") (lit "abc")) =
      .error ⟨.typeErr, 1, 1, lit "Invalid integer value: abc",
        mkDecl (lit "int") (lit "age") (lit "abc")⟩ ∧
    (1 : Nat) = 1 ∧ (1 : Nat) = 1 :=
  c6_literal_error_position (lit "int") (lit "age") (lit "abc")
    ⟨.typeErr, 1, 1, lit "Invalid integer value: abc",
      mkDecl (lit "int") (lit "age") (lit "abc")⟩
    (by decide) (by decide) (by decide) (by decide) rfl

/-- Counterexample for C6 as frozen: for `string name = invalid;` the value
text `invalid` begins at 1-based column 15 (`strings.Index` finds it at
0-based offset 14), but the reported Type error carries column 1, not 15. -/
theorem c6_counterexample :
    goParse (lit "string name = invalid;") =
      .error ⟨.typeErr, 1, 1, lit "String must be enclosed in double quotes",
        lit "string name = invalid;"⟩ ∧
    goIndexOf (lit "string name = invalid;") (lit "invalid") = some 14 ∧
    (1 : Nat) ≠ 14 + 1 :=
  ⟨rfl, rfl, by decide⟩

/-! Claim C3: multi-line statement assembly. -/

/-- The text the assembler accumulates for a run of continuation lines: each
line trimmed and followed by one space. -/
def joinTrimSp : List Str → Str
  | [] => []
  | l :: ls => trimSpace l ++ [' '] ++ joinTrimSp ls

/-- One assembler step while inside a multi-line statement: the trimmed line
is appended to the buffer (with a space), and the statement is closed exactly
when the line ends with `;` — no other condition is consulted. -/
theorem parseLinesGo_inMulti_step (cfg : Config) (orig : Str) (rest : List Str)
    (idx ms : Nat) (buf : Str) :
    parseLinesGo cfg (orig :: rest) idx true buf ms =
      if hasSuffix [';'] (trimSpace orig) = true then
        match parseLineGo cfg (buf ++ trimSpace orig ++ [' ']) ms
            (buf ++ trimSpace orig ++ [' ']) with
        | .ok c' => parseLinesGo c' rest (idx + 1) false [] ms
        | .error e => .error e
      else parseLinesGo cfg rest (idx + 1) true (buf ++ trimSpace orig ++ [' ']) ms := by
  simp [parseLinesGo]

theorem c3_aux (ls : List Str) :
    ∀ (cfg : Config) (tl : Str) (rest : List Str) (idx ms : Nat) (buf : Str),
    (∀ l ∈ ls, hasSuffix [';'] (trimSpace l) = false) →
    hasSuffix [';'] (trimSpace tl) = true →
    parseLinesGo cfg (ls ++ tl :: rest) idx true buf ms =
      match parseLineGo cfg (buf ++ joinTrimSp ls ++ (trimSpace tl ++ [' '])) ms
          (buf ++ joinTrimSp ls ++ (trimSpace tl ++ [' '])) with
      | .ok c' => parseLinesGo c' rest (idx + ls.length + 1) false [] ms
      | .error e => .error e := by
  induction ls with
  | nil =>
    intro cfg tl rest idx ms buf hls htl
    rw [List.nil_append, parseLinesGo_inMulti_step, if_pos htl]
    simp [joinTrimSp, List.append_assoc]
  | cons l ls ih =>
    intro cfg tl rest idx ms buf hls htl
    have hl : hasSuffix [';'] (trimSpace l) = false := hls l (by simp)
    rw [List.cons_append, parseLinesGo_inMulti_step, hl, if_neg (by simp)]
    rw [ih cfg tl rest (idx + 1) ms (buf ++ trimSpace l ++ [' '])
      (fun x hx => hls x (by simp [hx])) htl]
    have hidx : idx + 1 + ls.length + 1 = idx + (l :: ls).length + 1 := by
      simp; omega
    rw [hidx]
    simp [joinTrimSp, List.append_assoc]

/-- **C3 (corrected).** When a physical line opens a bracketed literal
(`{` or `[`) without ending the statement with `;`, the assembler accumulates
subsequent lines and terminates the logical statement at the **first**
subsequent line whose trimmed text ends with `;` — no bracket-depth counter
is maintained, and quoting is not consulted: a line ending in `;` while
brackets are still open **does** end the statement. -/
theorem c3_assembler_ends_at_first_semicolon (cfg : Config) (h : Str) (ls : List Str)
    (tl : Str) (rest : List Str) (idx ms : Nat)
    (hne : trimSpace h ≠ [])
    (hnc : hasPrefix ['/', '/'] (trimSpace h) = false)
    (hnd : hasPrefix ['@'] (trimSpace h) = false)
    (hbr : (trimSpace h).contains '{' = true ∨ (trimSpace h).contains '[' = true)
    (hns : hasSuffix [';'] (trimSpace h) = false)
    (hls : ∀ l ∈ ls, hasSuffix [';'] (trimSpace l) = false)
    (htl : hasSuffix [';'] (trimSpace tl) = true) :
    parseLinesGo cfg (h :: (ls ++ tl :: rest)) idx false [] ms =
      match parseLineGo cfg ((trimSpace h ++ [' ']) ++ joinTrimSp ls ++ (trimSpace tl ++ [' ']))
          (idx + 1)
          ((trimSpace h ++ [' ']) ++ joinTrimSp ls ++ (trimSpace tl ++ [' '])) with
      | .ok c' => parseLinesGo c' rest (idx + ls.length + 2) false [] (idx + 1)
      | .error e => .error e := by
  have hstep : parseLinesGo cfg (h :: (ls ++ tl :: rest)) idx false [] ms =
      parseLinesGo cfg (ls ++ tl :: rest) (idx + 1) true (trimSpace h ++ [' ']) (idx + 1) := by
    conv_lhs => unfold parseLinesGo
    rw [if_neg (by simp [hne, hnc])]
    rw [if_neg (by simp [hnd])]
    rw [if_pos ⟨by simp, by simpa using hbr, by simp [hns]⟩]
  rw [hstep, c3_aux ls cfg tl rest (idx + 1) (idx + 1) (trimSpace h ++ [' ']) hls htl]
  have hidx : idx + 1 + ls.length + 1 = idx + ls.length + 2 := by omega
  rw [hidx]

/-- Witness for C3 (amended): a map literal spanning three physical lines,
terminated by the first `;` line, parses as the assembled statement. -/
theorem c3_witness :
    parseLinesGo Config.new [lit "map m = \x7b", lit "\"a\": 1,", lit "\x7d;"] 0 false [] 0 =
      .ok ⟨[(['m'], GoVal.vmap [(['a'], GoVal.vint 1)])], .auto⟩ :=
  (c3_assembler_ends_at_first_semicolon Config.new (lit "map m = \x7b") [lit "\"a\": 1,"]
    (lit "\x7d;") [] 0 0 (by decide) (by decide) (by decide) (by decide) (by decide)
    (by decide) (by decide)).trans rfl

/-- Counterexample for C3 as frozen: in
`map m = {` / `"a": 1;` / `"b": 2` / `};` the second physical line ends with
`;` while the quote-aware bracket depth of the accumulated text is still 1,
so per the claim the statement must not end there; the code ends it there and
`Parse` fails with a Type error on the truncated statement, whereas the
claim-predicted assembly (the whole text as one statement) parses
successfully. -/
theorem c3_counterexample :
    hasSuffix [';'] (trimSpace (lit "\"a\": 1;")) = true ∧
    specBracketDepth ((trimSpace (lit "map m = \x7b") ++ [' ']) ++
      (trimSpace (lit "\"a\": 1;") ++ [' '])) = 1 ∧
    goParse (lit "map m = \x7b\n\"a\": 1;\n\"b\": 2\n\x7d;") =
      .error ⟨.typeErr, 1, 1, lit "Map must be enclosed in curly braces \x7b\x7d",
        lit "map m = \x7b \"a\": 1; "⟩ ∧
    (goParse (lit "map m = \x7b \"a\": 1; \"b\": 2 \x7d;")).isOk = true :=
  ⟨rfl, rfl, rfl, rfl⟩
